import Mathlib

/-!
# A verification development for the `fstrings` source-to-source migrator

This file gives a shallow embedding, in Lean, of the core of `fstrings.py`:
the cursor-tracking printer (`write`, `print`), the scoped capture mechanism
(`captureWrite`), the precedence-aware parenthesization guard (`autoParens`),
the printf-pattern scanner (a faithful model of the `re.finditer` loop in
`Visitor.make_fstring`) and the f-string rewrite itself, together with the
expression-level node handlers of the `Visitor` class that these reach
(`visit_Name`, `visit_Num`, `visit_Str`, `visit_Attribute`, `visit_Call`,
`visit_Subscript`, `visit_Index`, `visit_Slice`, `visit_Tuple`,
`visit_BinOp`, `visit_Compare`, `visit_BoolOp`, `visit_JoinedStr`).

Modelling conventions:
* Python's mutable `Visitor` object becomes an explicit state record `St`
  threaded through every operation; `sys.stdout` is the `out` field.
* Replacing the bound methods `self.write` / `self.print` during a capture
  (`Visitor.capture_write`) is modelled by the `mode` field: in `Mode.buf`,
  `write` is a raw append to the capture buffer (Python's `a_.append`) and
  `print` ignores its position arguments (the replacement lambda).
* An exception propagating out of a handler is modelled by an `Err` value
  paired with the state at the point of the raise; the `except` clause in
  `Visitor.visit` only prints a backtrace to `stderr` (not to the modelled
  output stream) and re-raises, so it does not affect the modelled state.
* Recursion over the tree is fuel-indexed (`visit fuel`): `visit 0` reports
  `Err.outOfFuel`, and `visit (fuel+1) = visitStep (visit fuel)` where
  `visitStep` is the non-recursive one-level dispatcher.  Any concrete run
  in this file is given ample fuel, so the fuel bound is never the
  binding constraint in a theorem about a concrete input.
* Statement-level handlers (`visit_Module`, `visit_If`, ...) are not needed
  by any claim below and are not embedded; the claims are about expression
  rendering and the format-rewrite engine.
-/

namespace Fstrings

/-- The single-quote character `'` (ASCII 39). -/
def squote : Char := Char.ofNat 39

/-- The string consisting of a single quote `'`. -/
def sq : String := String.singleton squote

/-- One lowercase hexadecimal digit, as produced by Python's `repr` in
`\xhh` escapes. Out-of-range input (never reached from `hex2`) yields `'0'`. -/
def hexDigit (n : Nat) : Char :=
  "0123456789abcdef".toList.getD n '0'

/-- Two lowercase hex digits of a byte, as in Python's `\xhh` escapes. -/
def hex2 (n : Nat) : List Char :=
  [hexDigit (n / 16 % 16), hexDigit (n % 16)]

/-- The escape Python's `repr` applies to one character of a string whose
chosen quote character is `q`: backslash and the quote are backslash-escaped,
`\n`, `\r`, `\t` become two-character escapes, other ASCII control characters
(and DEL) become `\xhh`.  Printable characters, including the quote character
not chosen, are kept as they are.  (Python additionally escapes non-printable
characters above ASCII as `\xhh`/`\uxxxx`; every such escape is built from a
backslash, letters and hex digits, so, like the branches below, it never
introduces a quote or brace character.  The inputs in this development are
ASCII.) -/
def pyEscChar (q : Char) (c : Char) : List Char :=
  if c = '\\' then ['\\', '\\']
  else if c = q then ['\\', q]
  else if c = '\n' then ['\\', 'n']
  else if c = '\r' then ['\\', 'r']
  else if c = '\t' then ['\\', 't']
  else if c.toNat < 32 ∨ c.toNat = 127 then '\\' :: 'x' :: hex2 c.toNat
  else [c]

/-- Python's `repr` of a string, at the level of character lists: choose the
quote character (single quote, unless the string contains a single quote and
no double quote), then escape each character and wrap in the quotes. -/
def pyReprL (cs : List Char) : List Char :=
  let q := if cs.contains squote ∧ ¬ cs.contains '"' then '"' else squote
  q :: (cs.flatMap (pyEscChar q) ++ [q])

/-- Python's `repr` of a string (`repr(s)` for `str`), used by `visit_Str`. -/
def pyReprStr (s : String) : String :=
  String.mk (pyReprL s.toList)

/-- `Visitor.escape_string_part`: `repr('"' + s)[2:-1]`.  Prefixing `"`
forces `repr` to choose single quotes; the slice strips the opening quote,
the (unescaped) added `"`, and the closing quote. -/
def escapeStringPart (s : String) : String :=
  String.mk (((pyReprL ('"' :: s.toList)).drop 2).dropLast)

/-- Binary and boolean operator kinds that can occur as `node.op` of a
`BinOp`/`BoolOp`, i.e. the operator classes looked up in `PRECEDENCE`. -/
inductive Operator where
  | boolOr | boolAnd
  | bitOr | bitXor | bitAnd
  | lshift | rshift
  | add | sub
  | mult | matMult | div | floorDiv | mod
  | pow
  deriving DecidableEq, Repr

/-- `precedence(op)`: the index of the operator's class in the `PRECEDENCE`
table (`ast.Or` is in row 2, ..., `ast.Pow` in row 13).  Every operator
reachable from a `BinOp`/`BoolOp` node appears in the table, so the function
is total here (the Python function returns `None` only for classes outside
the table). -/
def precedence : Operator → Int
  | .boolOr => 2
  | .boolAnd => 3
  | .bitOr => 6
  | .bitXor => 7
  | .bitAnd => 8
  | .lshift | .rshift => 9
  | .add | .sub => 10
  | .mult | .matMult | .div | .floorDiv | .mod => 11
  | .pow => 13

/-- The printable-name fallback Python's `str(node.op)` would produce, with
the memory address elided; only the four operators in the `ops` dict of
`visit_BinOp` ever render through a claim in this file. -/
def opDump : Operator → String
  | .boolOr => "<_ast.Or object>"
  | .boolAnd => "<_ast.And object>"
  | .bitOr => "<_ast.BitOr object>"
  | .bitXor => "<_ast.BitXor object>"
  | .bitAnd => "<_ast.BitAnd object>"
  | .lshift => "<_ast.LShift object>"
  | .rshift => "<_ast.RShift object>"
  | .add => "<_ast.Add object>"
  | .sub => "<_ast.Sub object>"
  | .mult => "<_ast.Mult object>"
  | .matMult => "<_ast.MatMult object>"
  | .div => "<_ast.Div object>"
  | .floorDiv => "<_ast.FloorDiv object>"
  | .mod => "<_ast.Mod object>"
  | .pow => "<_ast.Pow object>"

/-- The `ops` dict of `visit_BinOp`: `{Mod: '%', Sub: '-', Add: '+',
Mult: '*'}`, with `str(node.op)` as the `.get` default. -/
def binOpSymbol (op : Operator) : String :=
  match op with
  | .mod => "%"
  | .sub => "-"
  | .add => "+"
  | .mult => "*"
  | _ => opDump op

/-- Boolean operator kinds (`ast.And` / `ast.Or`). -/
inductive BoolOperator where
  | bAnd | bOr
  deriving DecidableEq, Repr

/-- The operator-table class of a boolean operator (for `precedence`). -/
def boolToOperator : BoolOperator → Operator
  | .bAnd => .boolAnd
  | .bOr => .boolOr

/-- The `ops` dict of `visit_BoolOp`: `{And: ' and ', Or: ' or '}` (direct
indexing; both keys are present for every parser-produced `BoolOp`). -/
def boolOpSymbol : BoolOperator → String
  | .bAnd => " and "
  | .bOr => " or "

/-- Comparison operator kinds (`node.ops` of a `Compare`). -/
inductive CmpOp where
  | cLt | cGt | cLtE | cGtE | cEq | cNotEq | cIn | cNotIn | cIs | cIsNot
  deriving DecidableEq, Repr

/-- The `ops` dict of `visit_Compare`, with `'?'` as the `.get` default
(`ast.NotIn` has no entry in the source's dict). -/
def cmpSymbol : CmpOp → String
  | .cLt => "<"
  | .cGt => ">"
  | .cLtE => "<="
  | .cGtE => ">="
  | .cEq => "=="
  | .cNotEq => "!="
  | .cIn => " in "
  | .cIs => " is "
  | .cIsNot => " is not "
  | .cNotIn => "?"

/-- The expression fragment of the annotated parse tree that the claims
reach.  Every node carries its recorded source position (`lineno`,
`col_offset`), as every Python AST expression node does. -/
inductive Node where
  | nName (id : String) (lineno col : Int)
  | nNum (n : Int) (lineno col : Int)
  | nStr (s : String) (lineno col : Int)
  | nAttribute (value : Node) (attr : String) (lineno col : Int)
  | nCall (func : Node) (args : List Node) (kws : List (Option String × Node)) (lineno col : Int)
  | nSubscript (value : Node) (slice : Node) (lineno col : Int)
  | nIndex (value : Node) (lineno col : Int)
  | nSlice (lower upper step : Option Node) (lineno col : Int)
  | nTuple (elts : List Node) (lineno col : Int)
  | nBinOp (left : Node) (op : Operator) (right : Node) (lineno col : Int)
  | nCompare (left : Node) (pairs : List (CmpOp × Node)) (lineno col : Int)
  | nBoolOp (op : BoolOperator) (vals : List Node) (lineno col : Int)
  | nJoinedStr (values : List Node) (lineno col : Int)

/-- `node.lineno`. -/
def Node.lineno : Node → Int
  | .nName _ l _ | .nNum _ l _ | .nStr _ l _ | .nAttribute _ _ l _
  | .nCall _ _ _ l _ | .nSubscript _ _ l _ | .nIndex _ l _
  | .nSlice _ _ _ l _ | .nTuple _ l _ | .nBinOp _ _ _ l _
  | .nCompare _ _ l _ | .nBoolOp _ _ l _ | .nJoinedStr _ l _ => l

/-- `node.col_offset`. -/
def Node.col : Node → Int
  | .nName _ _ c | .nNum _ _ c | .nStr _ _ c | .nAttribute _ _ _ c
  | .nCall _ _ _ _ c | .nSubscript _ _ _ c | .nIndex _ _ c
  | .nSlice _ _ _ _ c | .nTuple _ _ c | .nBinOp _ _ _ _ c
  | .nCompare _ _ _ c | .nBoolOp _ _ _ c | .nJoinedStr _ _ c => c

/-- Overwrite a node's stored position (models the in-place assignments
`a.lineno = ...; a.col_offset = ...` on lines 411-412 of the source). -/
def Node.setPos : Node → Int → Int → Node
  | .nName i _ _, l, c => .nName i l c
  | .nNum n _ _, l, c => .nNum n l c
  | .nStr s _ _, l, c => .nStr s l c
  | .nAttribute v a _ _, l, c => .nAttribute v a l c
  | .nCall f ar kw _ _, l, c => .nCall f ar kw l c
  | .nSubscript v s _ _, l, c => .nSubscript v s l c
  | .nIndex v _ _, l, c => .nIndex v l c
  | .nSlice lo hi st _ _, l, c => .nSlice lo hi st l c
  | .nTuple e _ _, l, c => .nTuple e l c
  | .nBinOp a o b _ _, l, c => .nBinOp a o b l c
  | .nCompare a p _ _, l, c => .nCompare a p l c
  | .nBoolOp o v _ _, l, c => .nBoolOp o v l c
  | .nJoinedStr v _ _, l, c => .nJoinedStr v l c

/-- The `type(node).__name__` of a node, for the repr dump of
`visit_JoinedStr` (pre-3.8 `ast` class names, as used by the source). -/
def nodeTypeName : Node → String
  | .nName .. => "Name"
  | .nNum .. => "Num"
  | .nStr .. => "Str"
  | .nAttribute .. => "Attribute"
  | .nCall .. => "Call"
  | .nSubscript .. => "Subscript"
  | .nIndex .. => "Index"
  | .nSlice .. => "Slice"
  | .nTuple .. => "Tuple"
  | .nBinOp .. => "BinOp"
  | .nCompare .. => "Compare"
  | .nBoolOp .. => "BoolOp"
  | .nJoinedStr .. => "JoinedStr"

/-- Python's `repr` of one AST object, `<_ast.Kind object at 0x...>`, with
the (nondeterministic) memory address elided; no theorem below depends on
the elided part, only on the shape of the surrounding text. -/
def pyReprNode (n : Node) : String :=
  "<_ast." ++ nodeTypeName n ++ " object>"

/-- Python's `repr` of the list `node.values`, as printed by
`visit_JoinedStr`. -/
def pyReprNodeList (ns : List Node) : String :=
  "[" ++ String.intercalate ", " (ns.map pyReprNode) ++ "]"

/-- The current emission target: `real` is `sys.stdout` behind the
line-window filter; `buf b` is an active capture (`self.write` replaced by
`a_.append`, with `b` the concatenation of everything appended so far). -/
inductive Mode where
  | real
  | buf (b : String)
  deriving DecidableEq, Repr

/-- The visitor's mutable state: the output cursor (`output_line`,
`output_col`), the output window (`first_line`, `last_line`; `none` models
`float('inf')`), the paren-nesting depth `p_level`, the precedence stack
(top at the head; the source appends/pops at the end of a Python list and
reads `self.precedence[-1]`), the current emission target, and the text
written to `sys.stdout` so far. -/
structure St where
  outputLine : Int
  outputCol : Int
  firstLine : Int
  lastLine : Option Int
  pLevel : Int
  precStack : List Int
  mode : Mode
  out : String
  deriving DecidableEq, Repr

/-- The state at the start of a run (`Visitor.__init__` with the default
unbounded window). -/
def initSt : St :=
  ⟨1, 0, 0, none, 0, [-1], .real, ""⟩

/-- Whether output line `l` is inside the window `[first_line, last_line]`
(`none` standing for the unbounded default `float('inf')`). -/
def inWin (fl : Int) (ll : Option Int) (l : Int) : Bool :=
  decide (fl ≤ l) &&
    (match ll with
     | none => true
     | some b => decide (l ≤ b))

/-- The window test of `Visitor.write` at output line `l`. -/
def windowAt (st : St) (l : Int) : Bool :=
  inWin st.firstLine st.lastLine l

/-- `s.splitlines(True)` restricted to `'\n'` boundaries, on character
lists; the accumulator holds the current chunk reversed.  (Python's
`splitlines` also splits at `\r`, `\v`, ... — but such a line does not end
in `'\n'`, so `Visitor.write` gives it the same line/column accounting and
the same window test as the unsplit text; the split below is observationally
equivalent for `write`.) -/
def splitKeepL : List Char → List Char → List (List Char)
  | [], acc => if acc.isEmpty then [] else [acc.reverse]
  | c :: cs, acc =>
    if c = '\n' then (acc.reverse ++ ['\n']) :: splitKeepL cs []
    else splitKeepL cs (c :: acc)

/-- One iteration of the loop of `Visitor.write`: emit the line to the real
stream exactly when the cursor's line is inside the window, then advance the
cursor (`'\n'`-terminated line: next line, column 0; otherwise advance the
column by the line's length). -/
def writeLineStep (ln : List Char) (st : St) : St :=
  let st1 := if windowAt st st.outputLine then { st with out := st.out ++ String.mk ln } else st
  if ln.getLast? = some '\n' then
    { st1 with outputLine := st1.outputLine + 1, outputCol := 0 }
  else
    { st1 with outputCol := st1.outputCol + ln.length }

/-- The loop of `Visitor.write` over the split lines. -/
def writeLines : List (List Char) → St → St
  | [], st => st
  | ln :: rest, st => writeLines rest (writeLineStep ln st)

/-- `self.write(s)`: in a capture, the raw `a_.append(s)` (no cursor or
window bookkeeping); on the real stream, the splitlines loop of
`Visitor.write`. -/
def write (s : String) (st : St) : St :=
  match st.mode with
  | .buf b => { st with mode := .buf (b ++ s) }
  | .real => writeLines (splitKeepL s.toList []) st

/-- `self.print(s, l, c)`: in a capture, the replacement lambda that ignores
the position and forwards to `write`; on the real stream, pad with newlines
and spaces up to the target position, then `write` the text. -/
def print (s : String) (l c : Int) (st : St) : St :=
  match st.mode with
  | .buf _ => write s st
  | .real =>
    let st := if st.outputLine < l then write (String.mk (List.replicate (l - st.outputLine).toNat '\n')) st else st
    let st := if st.outputCol < c then write (String.mk (List.replicate (c - st.outputCol).toNat ' ')) st else st
    write s st

/-- A visiting failure that propagates out of a handler: `indexError` models
`IndexError` from `arguments.pop(0)` on an empty list (or `node.values[0]`
of an empty `BoolOp`); `outOfFuel` is the artefact of the fuel-indexed
recursion, reported only when the fuel bound is exceeded. -/
inductive Err where
  | indexError
  | outOfFuel
  deriving DecidableEq, Repr

/-- Error-propagating sequencing: run the continuation only when the first
result did not raise (a raise skips the rest of the handler's body). -/
def andThenE (r : St × Option Err) (k : St → St × Option Err) : St × Option Err :=
  match r with
  | (st, some e) => (st, some e)
  | (st, none) => k st

/-- `Visitor.capture_write` around a body: save the cursor, swap the
emission target for a fresh capture buffer, run the body, and in the
`finally` block restore the previous target and the saved cursor — on the
error path as well.  Returns the restored state, the body's outcome, and
the captured text (`''.join(a_)`). -/
def captureWrite (body : St → St × Option Err) (st : St) : St × Option Err × String :=
  let r := body { st with mode := .buf "" }
  let cap := match r.1.mode with | .buf b => b | .real => ""
  ({ r.1 with mode := st.mode, outputLine := st.outputLine, outputCol := st.outputCol },
   r.2, cap)

/-- Strict lexicographic comparison of `(line, col)` pairs, Python's
`(a, b) > (c, d)`. -/
def lexGt (a b : Int × Int) : Bool :=
  decide (a.1 > b.1) || (decide (a.1 = b.1) && decide (a.2 > b.2))

/-- Entry half of the `Visitor.auto_parens` context manager: decide whether
to group, and either emit `'('`, push the `-1` sentinel and increment the
nesting depth, or push the operator's own precedence.  Returns the decision
(`p`) and the updated state.  The source's `if`/`elif` have byte-identical
bodies, so they are rendered as a single disjunction here (first disjunct =
the `if`'s layout condition, second = the `elif`'s precedence condition).
`self.precedence[-1]` reads the top of the stack; the stack is never empty
in a run — it starts as `[-1]` and every pop matches an earlier push — so
the `headD` default is never consulted. -/
def autoParensEnter (node left right : Node) (op : Operator) (st : St) : Bool × St :=
  if (decide (left.lineno ≠ right.lineno) && decide (st.pLevel = 0) &&
        lexGt (node.lineno, node.col) (st.outputLine, st.outputCol)) ||
      decide (st.precStack.headD 0 > precedence op) then
    (true,
      { write "(" st with
          precStack := -1 :: (write "(" st).precStack,
          pLevel := (write "(" st).pLevel + 1 })
  else
    (false, { st with precStack := precedence op :: st.precStack })

/-- Exit half of `Visitor.auto_parens`: after the operands, emit `')'` and
decrement the depth when grouping fired, then pop the stack.  (When the body
raised, the source never reaches this code — the context manager has no
`finally` — and the callers model that by skipping the exit on the error
path.) -/
def autoParensExit (p : Bool) (st : St) : St :=
  let st1 :=
    if p then
      let stw := write ")" st
      { stw with pLevel := stw.pLevel - 1 }
    else st
  { st1 with precStack := st1.precStack.tail }

/-! ## The printf-directive matcher

A faithful model of one match of the regular expression used by
`Visitor.make_fstring`:

`%(?P<key>\([^)]*\))?(?P<flag>[#0 +-]*)(?P<width>\*|\d+)?(?:\.(?P<prec>\*|\d+))?(?P<length>[hlL])?(?P<type>.)`

applied at a position just after a `'%'`.  Each optional/starred group is
greedy with backtracking: the alternatives are tried in the engine's
preference order (group present before absent, `\*` before `\d+`, longer
digit/flag runs before shorter) and the first alternative that lets the
rest of the pattern match wins.  Only the one-character `type` group is
used by the scanner; `.` matches any character except `'\n'`. -/

/-- A flag character, the class `[#0 +-]`. -/
def isFlag (c : Char) : Bool :=
  c = '#' || c = '0' || c = ' ' || c = '+' || c = '-'

/-- An ASCII digit, the class `\d` (on ASCII input). -/
def isDigit (c : Char) : Bool :=
  decide ('0' ≤ c) && decide (c ≤ '9')

/-- A length modifier, the class `[hlL]`. -/
def isLenMod (c : Char) : Bool :=
  c = 'h' || c = 'l' || c = 'L'

/-- `(?P<type>.)`: one character that is not a newline; returns the
conversion type and the rest of the input. -/
def matchType : List Char → Option (Char × List Char)
  | [] => none
  | c :: cs => if c = '\n' then none else some (c, cs)

/-- `(?P<length>[hlL])?` then the type: prefer consuming a length modifier,
fall back to leaving it for the type. -/
def matchLengthMod (cs : List Char) : Option (Char × List Char) :=
  match cs with
  | c :: rest =>
    if isLenMod c then
      match matchType rest with
      | some r => some r
      | none => matchType cs
    else matchType cs
  | [] => none

/-- Greedy `\d+` with giveback: try the continuation after `i` digits for
`i` from the maximal digit run down to `1`. -/
def tryDigits (k : List Char → Option (Char × List Char)) (cs : List Char) :
    Nat → Option (Char × List Char)
  | 0 => none
  | i + 1 =>
    match k (cs.drop (i + 1)) with
    | some r => some r
    | none => tryDigits k cs i

/-- `(?:\.(?P<prec>\*|\d+))?` then length modifier and type: inside the
group prefer `\*`, then a maximal digit run with giveback; otherwise the
group is absent. -/
def matchPrecision (cs : List Char) : Option (Char × List Char) :=
  match cs with
  | '.' :: rest =>
    let star :=
      match rest with
      | '*' :: r2 => matchLengthMod r2
      | _ => none
    let inGroup :=
      match star with
      | some r => some r
      | none => tryDigits matchLengthMod rest ((rest.takeWhile isDigit).length)
    (match inGroup with
     | some r => some r
     | none => matchLengthMod cs)
  | _ => matchLengthMod cs

/-- `(?P<width>\*|\d+)?` then the precision chain: `\*` first, then digits
with giveback, then the group absent. -/
def matchWidth (cs : List Char) : Option (Char × List Char) :=
  let star :=
    match cs with
    | '*' :: r2 => matchPrecision r2
    | _ => none
  let inGroup :=
    match star with
    | some r => some r
    | none => tryDigits matchPrecision cs ((cs.takeWhile isDigit).length)
  match inGroup with
  | some r => some r
  | none => matchPrecision cs

/-- Greedy `[#0 +-]*` with giveback down to the empty run. -/
def tryFlags (k : List Char → Option (Char × List Char)) (cs : List Char) :
    Nat → Option (Char × List Char)
  | 0 => k cs
  | i + 1 =>
    match k (cs.drop (i + 1)) with
    | some r => some r
    | none => tryFlags k cs i

/-- The flag run then the width chain. -/
def matchFlagsPart (cs : List Char) : Option (Char × List Char) :=
  tryFlags matchWidth cs ((cs.takeWhile isFlag).length)

/-- The full directive after the `'%'`: `(?P<key>\([^)]*\))?` (a
parenthesized key, `[^)]*` being maximal-by-construction since it cannot
contain the closing `')'`), preferred present, then the flag chain. -/
def matchAfterPercent (cs : List Char) : Option (Char × List Char) :=
  let withKey :=
    match cs with
    | '(' :: rest =>
      let inner := rest.takeWhile (fun c => decide (c ≠ ')'))
      (match rest.drop inner.length with
       | ')' :: r2 => matchFlagsPart r2
       | _ => none)
    | _ => none
  match withKey with
  | some r => some r
  | none => matchFlagsPart cs

/-- `re.finditer(pattern, s)`, specialised to this pattern: scan left to
right; every match starts at a `'%'`; at a `'%'` where the pattern cannot
match, that character is part of the literal text between matches.  Returns
the list of (preceding literal text, conversion type) pairs, in order, and
the trailing literal text.  The fuel is set to `length + 1` by
`findMatches`, enough because every step consumes at least one character. -/
def findIter : Nat → List Char → List Char → List (String × Char) × String
  | 0, cs, acc => ([], String.mk (acc.reverse ++ cs))
  | _ + 1, [], acc => ([], String.mk acc.reverse)
  | f + 1, c :: cs, acc =>
    if c = '%' then
      match matchAfterPercent cs with
      | some (t, rest) =>
        let r := findIter f rest []
        ((String.mk acc.reverse, t) :: r.1, r.2)
      | none => findIter f cs (c :: acc)
    else findIter f cs (c :: acc)

/-- All matches of the directive pattern in a template string. -/
def findMatches (s : String) : List (String × Char) × String :=
  findIter (s.toList.length + 1) s.toList []

/-- One piece of a scanned template: a literal text segment, or a
substitution pairing an argument node with its conversion type. -/
inductive Part where
  | lit (s : String)
  | sub (a : Node) (t : Char)

/-- The outcome of the scan loop of `make_fstring` (lines 387-403):
`ok` with the pieces in order; `bad` — an unsupported conversion type, the
function returns `None`; `leftover` — arguments remained unconsumed, the
function returns `None`; `popEmpty` — `arguments.pop(0)` on an empty list,
an `IndexError` is raised. -/
inductive ScanRes where
  | ok (ps : List Part)
  | bad
  | leftover
  | popEmpty

/-- Prepend a piece to a successful scan; failures pass through. -/
def consPart (p : Part) (r : ScanRes) : ScanRes :=
  match r with
  | .ok ps => .ok (p :: ps)
  | x => x

/-- The scan loop of `make_fstring`: for each match append the literal text
before it, then dispatch on the conversion type (`'%'` appends a literal
percent and consumes no argument; `'s'`/`'r'` pop the next argument; any
other type abandons the rewrite); afterwards append the trailing literal
and require the argument list to be exhausted. -/
def scanLoop : List (String × Char) → List Node → String → ScanRes
  | [], args, tl => if args.isEmpty then .ok [.lit tl] else .leftover
  | (pre, t) :: rest, args, tl =>
    if t = '%' then consPart (.lit pre) (consPart (.lit "%") (scanLoop rest args tl))
    else if t = 's' ∨ t = 'r' then
      match args with
      | [] => .popEmpty
      | a :: args2 => consPart (.lit pre) (consPart (.sub a t) (scanLoop rest args2 tl))
    else .bad

/-- Scan a template string against an argument list. -/
def scanFormat (s : String) (args : List Node) : ScanRes :=
  scanLoop (findMatches s).1 args (findMatches s).2

/-- The argument list of the percent expression: the elements of a tuple
right operand, otherwise the right operand alone. -/
def argsOf (r : Node) : List Node :=
  match r with
  | .nTuple elts _ _ => elts
  | _ => [r]

/-- The outcome of `make_fstring`: `na` — the node is not an eligible
percent-format pattern (the function returns `None` and the caller renders
the expression normally); `done muts` — the rewrite was emitted (`True`),
with `muts` recording, in order, the argument nodes whose stored positions
lines 411-412 overwrote in place (they persist in the tree after the call);
`err` — an exception propagated. -/
inductive MfRes where
  | na
  | done (muts : List Node)
  | err (e : Err)

/-! ## The tree dispatcher

`visitStep rec` is one level of `Visitor.visit`'s dispatch, with `rec` the
recursive visit used for children; `visit (fuel+1) = visitStep (visit fuel)`.
The helper functions below (`commasepW`, `keywordsW`, ...) are the loops of
the corresponding handlers, parameterised by `rec`. -/

/-- The rendering loop of `make_fstring` over the scanned pieces (lines
405-419): literal pieces are escaped and written; for a substitution,
open the brace, overwrite the argument node's position with the current
output cursor (lines 411-412 — the third component of the result collects
these overwritten nodes), render it into a capture, write the escaped
captured text, append `'!' + t` unless the type is `'s'`, and close the
brace.  An exception from the captured render propagates (the overwrite has
already happened). -/
def renderPartsW (rec : Node → St → St × Option Err) :
    List Part → St → St × Option Err × List Node
  | [], st => (st, none, [])
  | .lit s :: rest, st => renderPartsW rec rest (write (escapeStringPart s) st)
  | .sub a t :: rest, st =>
    let st1 := write "\x7b" st
    let a2 := a.setPos st1.outputLine st1.outputCol
    let r := captureWrite (rec a2) st1
    match r with
    | (st2, some e, _) => (st2, some e, [a2])
    | (st2, none, cap) =>
      let st3 := write (escapeStringPart cap) st2
      let st4 := if t ≠ 's' then write ("!" ++ t.toString) st3 else st3
      let st5 := write "\x7d" st4
      let rr := renderPartsW rec rest st5
      (rr.1, rr.2.1, a2 :: rr.2.2)

/-- `Visitor.make_fstring` (parameterised by the recursive visit): trigger
only on `BinOp(Mod, Str, _)`; collect the arguments, scan the template, and
on a successful scan print `f'`, render the pieces, and close the quote.
A scan failure returns `None` (`na` here); an exhausted argument list
raises `IndexError` before any output. -/
def makeFstringW (rec : Node → St → St × Option Err) (node : Node) (st : St) : St × MfRes :=
  match node with
  | .nBinOp (.nStr s _ _) .mod r ln c =>
    match scanFormat s (argsOf r) with
    | .bad => (st, .na)
    | .leftover => (st, .na)
    | .popEmpty => (st, .err .indexError)
    | .ok ps =>
      match renderPartsW rec ps (print ("f" ++ sq) ln c st) with
      | (st2, some e, _) => (st2, .err e)
      | (st2, none, muts) => (write sq st2, .done muts)
  | _ => (st, .na)

/-- The loop of `visit_commasep`: a comma before every element except the
first (`first` is true when no element has been rendered yet). -/
def commasepW (rec : Node → St → St × Option Err) (first : Bool) :
    List Node → St → St × Option Err
  | [], st => (st, none)
  | a :: rest, st =>
    let st1 := if first then st else write "," st
    andThenE (rec a st1) fun st2 => commasepW rec false rest st2

/-- The keyword loop of `visit_Call`: a comma before a keyword when either
a keyword or a positional argument precedes it; `**` for a `None` key,
otherwise `k + '='`. -/
def keywordsW (rec : Node → St → St × Option Err) (prev : Bool) :
    List (Option String × Node) → St → St × Option Err
  | [], st => (st, none)
  | (k, v) :: rest, st =>
    let st1 := if prev then write "," st else st
    let st2 :=
      match k with
      | none => write "**" st1
      | some kk => write (kk ++ "=") st1
    andThenE (rec v st2) fun st3 => keywordsW rec true rest st3

/-- The element loop of `visit_Tuple` after the first element: a comma
before each further element. -/
def tupleRestW (rec : Node → St → St × Option Err) :
    List Node → St → St × Option Err
  | [], st => (st, none)
  | a :: rest, st =>
    let st1 := write "," st
    andThenE (rec a st1) fun st2 => tupleRestW rec rest st2

/-- The pair loop of `visit_Compare`: `' %s '` with the printable symbol
(dict lookup with `'?'` default), then the comparator. -/
def comparePairsW (rec : Node → St → St × Option Err) :
    List (CmpOp × Node) → St → St × Option Err
  | [], st => (st, none)
  | (op, right) :: rest, st =>
    let st1 := write (" " ++ cmpSymbol op ++ " ") st
    andThenE (rec right st1) fun st2 => comparePairsW rec rest st2

/-- The value loop of `visit_BoolOp`: the operator keyword between
consecutive values. -/
def boolValsW (rec : Node → St → St × Option Err) (sep : String) (first : Bool) :
    List Node → St → St × Option Err
  | [], st => (st, none)
  | v :: rest, st =>
    let st1 := if first then st else write sep st
    andThenE (rec v st1) fun st2 => boolValsW rec sep false rest st2

/-- One level of the dispatch of `Visitor.visit` over the embedded
expression kinds, with `rec` for children.  The `try/except` wrapper of
`Visitor.visit` prints a backtrace to `stderr` (outside the modelled output
stream) and re-raises, so it is the identity on the modelled state. -/
def visitStep (rec : Node → St → St × Option Err) (node : Node) (st : St) : St × Option Err :=
  match node with
  | .nName id ln c => (print id ln c st, none)
  | .nNum n ln c => (print (toString n) ln c st, none)
  | .nStr s ln c => (print (pyReprStr s) ln c st, none)
  | .nJoinedStr vs ln c => (print (pyReprNodeList vs) ln c st, none)
  | .nAttribute v attr _ _ =>
    andThenE (rec v st) fun st1 =>
      let st2 := write "." st1
      (write attr st2, none)
  | .nSubscript v sl _ _ =>
    andThenE (rec v st) fun st1 =>
      let st2 := write "[" st1
      andThenE (rec sl st2) fun st3 => (write "]" st3, none)
  | .nIndex v _ _ => rec v st
  | .nSlice lo hi stp _ _ =>
    let r1 := match lo with | some n => rec n st | none => (st, none)
    andThenE r1 fun st1 =>
      let st2 := write ":" st1
      let r2 := match hi with | some n => rec n st2 | none => (st2, none)
      andThenE r2 fun st3 =>
        match stp with
        | none => (st3, none)
        | some n => rec n (write ":" st3)
  | .nTuple elts ln c =>
    match elts with
    | [] => (print "()" ln c st, none)
    | e0 :: rest =>
      let st1 := print "(" ln (c - 1) st
      andThenE (rec e0 st1) fun st2 =>
        andThenE (tupleRestW rec rest st2) fun st3 =>
          let st4 := if rest.isEmpty then write "," st3 else st3
          (write ")" st4, none)
  | .nCall f args kws _ _ =>
    andThenE (rec f st) fun st1 =>
      let st2 := write "(" st1
      andThenE (commasepW rec true args st2) fun st3 =>
        andThenE (keywordsW rec (!args.isEmpty) kws st3) fun st4 =>
          (write ")" st4, none)
  | .nBinOp l op r ln c =>
    match makeFstringW rec (.nBinOp l op r ln c) st with
    | (st1, .done _) => (st1, none)
    | (st1, .err e) => (st1, some e)
    | (st1, .na) =>
      let pr := autoParensEnter (.nBinOp l op r ln c) l r op st1
      andThenE (rec l pr.2) fun st2 =>
        let st3 := write (" " ++ binOpSymbol op ++ " ") st2
        andThenE (rec r st3) fun st4 => (autoParensExit pr.1 st4, none)
  | .nCompare l prs _ _ =>
    andThenE (rec l st) fun st1 => comparePairsW rec prs st1
  | .nBoolOp op vals ln c =>
    match vals with
    | [] => (st, some .indexError)
    | v0 :: rest =>
      let lastV := rest.getLastD v0
      let pr := autoParensEnter (.nBoolOp op vals ln c) v0 lastV (boolToOperator op) st
      andThenE (boolValsW rec (boolOpSymbol op) true vals pr.2) fun st2 =>
        (autoParensExit pr.1 st2, none)

/-- The fuel-indexed recursive visit: `visit 0` reports fuel exhaustion,
`visit (fuel+1)` dispatches one level with `visit fuel` for children. -/
def visit : Nat → Node → St → St × Option Err
  | 0, _, st => (st, some .outOfFuel)
  | fuel + 1, node, st => visitStep (visit fuel) node st

/-- `Visitor.make_fstring` with the fuel-indexed visit for sub-renders. -/
def makeFstring (fuel : Nat) : Node → St → St × MfRes :=
  makeFstringW (visit fuel)

/-! ## Spec-side functions

The definitions in this section follow the wording of the specification
(they are what the claims assert about the code), to be compared with the
source-derived definitions above. -/

/-- Modelled from the spec: the cursor bookkeeping rule of §4.1 applied
character by character — "each embedded newline increments the output line
and resets the column to zero, and any other character run adds its length
to the column", independent of any window. -/
def cursorAdvanceSpec : List Char → Int × Int → Int × Int
  | [], p => p
  | c :: cs, (l, col) =>
    cursorAdvanceSpec cs (if c = '\n' then (l + 1, 0) else (l, col + 1))

/-- Modelled from the spec: the emitted bytes of a windowed run — the
`k`-th split line (processed at output line `cur + k`) reaches the real
stream exactly when that line is inside the window. -/
def emitFilter (fl : Int) (ll : Option Int) : List (List Char) → Int → String
  | [], _ => ""
  | ln :: rest, cur =>
    (if inWin fl ll cur then String.mk ln else "") ++ emitFilter fl ll rest (cur + 1)

/-- The conversion types of the argument-consuming (non-`%%`) directives of
a match list, in template order. -/
def srOf (ms : List (String × Char)) : List Char :=
  (ms.map Prod.snd).filter (fun t => decide (t ≠ '%'))

/-- Every directive of a match list has a conversion type the scan loop
can satisfy: percent escape, display or representation. -/
def supportedTypes (ms : List (String × Char)) : Prop :=
  ∀ p ∈ ms, p.2 = '%' ∨ p.2 = 's' ∨ p.2 = 'r'

/-- The substitutions of a scanned piece list, in order, as
(argument, conversion type) pairs. -/
def subsOf (ps : List Part) : List (Node × Char) :=
  ps.filterMap fun p =>
    match p with
    | .sub a t => some (a, t)
    | .lit _ => none

/-- The text contributed to the interpolated literal by one substitution
whose escaped captured rendering is `cap`: the braces, the captured text,
and the `!t` conversion suffix exactly when the type is not display. -/
def assembleSub (t : Char) (cap : String) : String :=
  "\x7b" ++ cap ++ (if t ≠ 's' then "!" ++ t.toString else "") ++ "\x7d"

/-- The body text of the produced interpolated literal: escaped literal
segments interleaved with the substitution texts, consuming one element of
`caps` (the escaped captured renderings) per substitution. -/
def assembleParts : List Part → List String → String
  | [], _ => ""
  | .lit s :: rest, caps => escapeStringPart s ++ assembleParts rest caps
  | .sub _ t :: rest, caps =>
    match caps with
    | [] => ""
    | c :: caps2 => assembleSub t c ++ assembleParts rest caps2

/-- The trigger guard of `make_fstring`: a binary `%` whose left operand is
a literal string. -/
def isPercentPattern : Node → Bool
  | .nBinOp (.nStr _ _ _) .mod _ _ _ => true
  | _ => false

/-- A brace character. -/
def isBrace (c : Char) : Bool :=
  c = '\x7b' || c = '\x7d'

/-! ## Invariant helpers for capture-mode renders -/

/-- `st2` differs from `st` only in the capture buffer (and the balanced
stack/depth fields): the real output, the window bounds and the cursor are
untouched and the emission target is still a capture.  This is the frame a
captured sub-render must respect. -/
def BufFrame (st st2 : St) : Prop :=
  st2.out = st.out ∧ st2.firstLine = st.firstLine ∧ st2.lastLine = st.lastLine ∧
    st2.outputLine = st.outputLine ∧ st2.outputCol = st.outputCol ∧
    ∃ b2, st2.mode = Mode.buf b2

/-- A state transformer that respects the capture frame whenever it starts
in capture mode. -/
def BufSafe (f : St → St × Option Err) : Prop :=
  ∀ st b, st.mode = Mode.buf b → BufFrame st (f st).1

/-- A node-indexed family of frame-respecting transformers. -/
def BufSafeN (rec : Node → St → St × Option Err) : Prop :=
  ∀ n, BufSafe (rec n)

/-- A chunk produced by the line splitter: nonempty, with no interior
newline. -/
def goodChunk (l : List Char) : Prop :=
  l ≠ [] ∧ '\n' ∉ l.dropLast

/-- The split lines of one `write` call: every chunk is good, and every
chunk except possibly the last ends in a newline. -/
def chunksOK : List (List Char) → Prop
  | [] => True
  | [l] => goodChunk l
  | l :: rest => goodChunk l ∧ l.getLast? = some '\n' ∧ chunksOK rest

/-! ## Concrete inputs

Node trees as the external parser would produce them (positions as recorded
for the quoted source text, `ast.Tuple` carrying the position of its first
element as in the parser targeted by the source). -/

/-- `greeting[0].upper()` of the concrete scenario. -/
def exCall : Node :=
  .nCall (.nAttribute (.nSubscript (.nName "greeting" 1 13)
    (.nIndex (.nNum 0 1 22) 1 22) 1 13) "upper" 1 13) [] [] 1 13

/-- `greeting[1:]` of the concrete scenario. -/
def exSlice : Node :=
  .nSubscript (.nName "greeting" 1 33) (.nSlice (some (.nNum 1 1 42)) none none 1 42) 1 33

/-- The concrete scenario `'%s%s, %s!' % (greeting[0].upper(), greeting[1:], target)`. -/
def exScenario : Node :=
  .nBinOp (.nStr "%s%s, %s!" 1 0) .mod
    (.nTuple [exCall, exSlice, .nName "target" 1 47] 1 13) 1 0

/-- `'%s%s' % (x,)` — two directives, one argument. -/
def exTwoOne : Node :=
  .nBinOp (.nStr "%s%s" 1 0) .mod (.nTuple [.nName "x" 1 11] 1 11) 1 0

/-- `'%s' % (a, b)` — one directive, two arguments. -/
def exOneTwo : Node :=
  .nBinOp (.nStr "%s" 1 0) .mod (.nTuple [.nName "a" 1 8, .nName "b" 1 11] 1 8) 1 0

/-- `'%s%d' % ()` — a display directive followed by an unsupported numeric
directive, with an empty argument tuple. -/
def exBadAfterEmpty : Node :=
  .nBinOp (.nStr "%s%d" 1 0) .mod (.nTuple [] 1 10) 1 0

/-- `'%d' % (n,)` — a single unsupported numeric directive. -/
def exNumeric : Node :=
  .nBinOp (.nStr "%d" 1 0) .mod (.nTuple [.nName "n" 1 8] 1 8) 1 0

/-- A state whose precedence-stack top demands a tighter operator than any
comparison or additive operator provides. -/
def stHigh : St :=
  { initSt with precStack := [15, -1] }

/-- The comparison chain `a < b`. -/
def exCompare : Node :=
  .nCompare (.nName "a" 1 0) [(.cLt, .nName "b" 1 4)] 1 0

/-- The arithmetic expression `a + b` at the same position. -/
def exArith : Node :=
  .nBinOp (.nName "a" 1 0) .add (.nName "b" 1 4) 1 0

/-- The interpolated-string literal `f'hi'` (a `JoinedStr` whose single
value is the literal `'hi'`), as the parser records it. -/
def exJoined : Node :=
  .nJoinedStr [.nStr "hi" 1 2] 1 0

/-- `'%s' % (x,)` with `x` recorded at column 8. -/
def exMutate : Node :=
  .nBinOp (.nStr "%s" 1 0) .mod (.nTuple [.nName "x" 1 8] 1 8) 1 0

/-- `'%r' % (y,)` with `y` recorded at column 8 — the representation
conversion scenario. -/
def exRepr : Node :=
  .nBinOp (.nStr "%r" 1 0) .mod (.nTuple [.nName "y" 1 8] 1 8) 1 0

/-- `'%s}' % (x,)` — a template whose literal text contains a brace. -/
def exBrace : Node :=
  .nBinOp (.nStr "%s\x7d" 1 0) .mod (.nTuple [.nName "x" 1 9] 1 9) 1 0

/-- A windowed state: only output line 2 reaches the real stream. -/
def stWindow : St :=
  { initSt with firstLine := 2, lastLine := some 2 }

/-! ## Lemmas about the writer -/

lemma cursorAdvanceSpec_append (l1 l2 : List Char) (p : Int × Int) :
    cursorAdvanceSpec (l1 ++ l2) p = cursorAdvanceSpec l2 (cursorAdvanceSpec l1 p) := by
  induction l1 generalizing p with
  | nil => rfl
  | cons c cs ih =>
    obtain ⟨a, b⟩ := p
    simp only [List.cons_append, cursorAdvanceSpec]
    exact ih _

lemma cursorAdvanceSpec_noNl (l : List Char) (hl : '\n' ∉ l) (a b : Int) :
    cursorAdvanceSpec l (a, b) = (a, b + l.length) := by
  induction l generalizing b with
  | nil => simp [cursorAdvanceSpec]
  | cons c cs ih =>
    have hc : c ≠ '\n' := fun h => hl (h ▸ List.mem_cons_self c cs)
    have hcs : '\n' ∉ cs := fun h => hl (List.mem_cons_of_mem _ h)
    simp only [cursorAdvanceSpec, if_neg hc, ih hcs, List.length_cons]
    have : b + 1 + (cs.length : Int) = b + ((cs.length : Int) + 1) := by ring
    rw [this]
    push_cast
    rfl

lemma cursorAdvanceSpec_chunk (l : List Char) (hg : goodChunk l) (a b : Int) :
    cursorAdvanceSpec l (a, b) =
      if l.getLast? = some '\n' then (a + 1, 0) else (a, b + l.length) := by
  obtain ⟨hne, hdrop⟩ := hg
  have hrepr : l = l.dropLast ++ [l.getLast hne] := (List.dropLast_append_getLast hne).symm
  have hlast : l.getLast? = some (l.getLast hne) := List.getLast?_eq_getLast l hne
  by_cases hnl : l.getLast hne = '\n'
  · rw [if_pos (by rw [hlast, hnl])]
    conv_lhs => rw [hrepr]
    rw [cursorAdvanceSpec_append, cursorAdvanceSpec_noNl _ hdrop, hnl]
    simp [cursorAdvanceSpec]
  · have hnotin : '\n' ∉ l := by
      intro hmem
      rcases List.mem_append.mp (hrepr ▸ hmem) with hm | hm
      · exact hdrop hm
      · exact hnl (List.mem_singleton.mp hm).symm
    rw [if_neg (by rw [hlast]; exact fun h => hnl (Option.some.inj h))]
    exact cursorAdvanceSpec_noNl l hnotin a b

lemma chunksOK_cons_of {l : List Char} {rest : List (List Char)}
    (h1 : goodChunk l) (h2 : l.getLast? = some '\n') (h3 : chunksOK rest) :
    chunksOK (l :: rest) := by
  cases rest with
  | nil => exact h1
  | cons r rs => exact ⟨h1, h2, h3⟩

lemma chunksOK_cons {l : List Char} {rest : List (List Char)}
    (h : chunksOK (l :: rest)) :
    goodChunk l ∧ (rest = [] ∨ (l.getLast? = some '\n' ∧ chunksOK rest)) := by
  cases rest with
  | nil => exact ⟨h, Or.inl rfl⟩
  | cons r rs => exact ⟨h.1, Or.inr ⟨h.2.1, h.2.2⟩⟩

lemma splitKeepL_flatten : ∀ (cs acc : List Char),
    (splitKeepL cs acc).flatten = acc.reverse ++ cs := by
  intro cs
  induction cs with
  | nil =>
    intro acc
    by_cases h : acc.isEmpty
    · simp_all [splitKeepL, List.isEmpty_iff]
    · simp [splitKeepL, h]
  | cons c cs ih =>
    intro acc
    by_cases h : c = '\n'
    · subst h
      simp [splitKeepL, ih []]
    · simp [splitKeepL, h, ih (c :: acc)]

lemma splitKeepL_chunksOK : ∀ (cs acc : List Char), '\n' ∉ acc →
    chunksOK (splitKeepL cs acc) := by
  intro cs
  induction cs with
  | nil =>
    intro acc hacc
    by_cases h : acc.isEmpty
    · simp [splitKeepL, h, chunksOK]
    · have hne : acc ≠ [] := fun he => by simp [he] at h
      simp only [splitKeepL, h, Bool.false_eq_true, if_false]
      show chunksOK [acc.reverse]
      refine ⟨by simpa using hne, fun hmem => hacc ?_⟩
      have := List.dropLast_subset _ hmem
      simpa using this
  | cons c cs ih =>
    intro acc hacc
    by_cases h : c = '\n'
    · subst h
      simp only [splitKeepL, if_pos rfl]
      refine chunksOK_cons_of ⟨by simp, ?_⟩ (by simp) (ih [] (by simp))
      rw [List.dropLast_concat]
      intro hmem
      exact hacc (by simpa using hmem)
    · simp only [splitKeepL, h, if_false]
      refine ih (c :: acc) ?_
      intro hmem
      rcases List.mem_cons.mp hmem with h' | h'
      · exact h h'.symm
      · exact hacc h'

lemma writeLineStep_const (ln : List Char) (st : St) :
    (writeLineStep ln st).firstLine = st.firstLine ∧
    (writeLineStep ln st).lastLine = st.lastLine ∧
    (writeLineStep ln st).mode = st.mode ∧
    (writeLineStep ln st).pLevel = st.pLevel ∧
    (writeLineStep ln st).precStack = st.precStack := by
  unfold writeLineStep
  split_ifs <;> exact ⟨rfl, rfl, rfl, rfl, rfl⟩

lemma writeLines_const : ∀ (lns : List (List Char)) (st : St),
    (writeLines lns st).firstLine = st.firstLine ∧
    (writeLines lns st).lastLine = st.lastLine ∧
    (writeLines lns st).mode = st.mode ∧
    (writeLines lns st).pLevel = st.pLevel ∧
    (writeLines lns st).precStack = st.precStack := by
  intro lns
  induction lns with
  | nil => intro st; exact ⟨rfl, rfl, rfl, rfl, rfl⟩
  | cons ln rest ih =>
    intro st
    obtain ⟨h1, h2, h3, h4, h5⟩ := ih (writeLineStep ln st)
    obtain ⟨g1, g2, g3, g4, g5⟩ := writeLineStep_const ln st
    exact ⟨h1.trans g1, h2.trans g2, h3.trans g3, h4.trans g4, h5.trans g5⟩

lemma writeLineStep_run (ln : List Char) (st : St) (hg : goodChunk ln) :
    ((writeLineStep ln st).outputLine, (writeLineStep ln st).outputCol) =
      cursorAdvanceSpec ln (st.outputLine, st.outputCol) ∧
    (writeLineStep ln st).out =
      st.out ++ (if inWin st.firstLine st.lastLine st.outputLine then String.mk ln else "") := by
  rw [cursorAdvanceSpec_chunk ln hg]
  unfold writeLineStep windowAt
  split_ifs <;> simp_all

lemma writeLines_run : ∀ (lns : List (List Char)) (st : St), chunksOK lns →
    ((writeLines lns st).outputLine, (writeLines lns st).outputCol) =
      cursorAdvanceSpec lns.flatten (st.outputLine, st.outputCol) ∧
    (writeLines lns st).out =
      st.out ++ emitFilter st.firstLine st.lastLine lns st.outputLine := by
  intro lns
  induction lns with
  | nil => intro st _; simp [writeLines, cursorAdvanceSpec, emitFilter]
  | cons ln rest ih =>
    intro st hok
    obtain ⟨hg, hrest⟩ := chunksOK_cons hok
    obtain ⟨hcur, hout⟩ := writeLineStep_run ln st hg
    rcases hrest with hnil | ⟨hlast, hok'⟩
    · subst hnil
      show ((writeLineStep ln st).outputLine, (writeLineStep ln st).outputCol) = _ ∧
        (writeLineStep ln st).out = _
      rw [hcur, hout]
      constructor
      · simp
      · simp [emitFilter]
    · obtain ⟨ihc, iho⟩ := ih (writeLineStep ln st) hok'
      obtain ⟨c1, c2, _, _, _⟩ := writeLineStep_const ln st
      have hcur2 : (writeLineStep ln st).outputLine = st.outputLine + 1 ∧
          (writeLineStep ln st).outputCol = 0 := by
        have := hcur
        rw [cursorAdvanceSpec_chunk ln hg, if_pos hlast] at this
        exact ⟨congrArg Prod.fst this, congrArg Prod.snd this⟩
      constructor
      · show ((writeLines rest (writeLineStep ln st)).outputLine,
            (writeLines rest (writeLineStep ln st)).outputCol) = _
        rw [List.flatten_cons, cursorAdvanceSpec_append, ← hcur]
        exact ihc
      · show (writeLines rest (writeLineStep ln st)).out = _
        rw [iho, c1, c2, hcur2.1, hout]
        simp only [emitFilter]
        rw [String.append_assoc]

lemma write_real (s : String) (st : St) (h : st.mode = Mode.real) :
    write s st = writeLines (splitKeepL s.toList []) st := by
  unfold write
  rw [h]

/-! ## Claim theorems: the writer (C8) -/

/-- C8: for every emitted text fragment, the writer appends a line to the
real stream exactly when the cursor's current output line lies inside the
inclusive window (the `k`-th split line being processed at line
`output_line + k`, which is what `emitFilter` folds over), and the cursor
bookkeeping is that of `cursorAdvanceSpec` — each embedded newline
increments the output line and resets the column, every other character
advances the column — with no dependence on the window. -/
theorem c8_window_bookkeeping (s : String) (st : St) (h : st.mode = Mode.real) :
    ((write s st).outputLine, (write s st).outputCol) =
      cursorAdvanceSpec s.toList (st.outputLine, st.outputCol) ∧
    (write s st).out =
      st.out ++ emitFilter st.firstLine st.lastLine (splitKeepL s.toList []) st.outputLine := by
  rw [write_real s st h]
  have hr := writeLines_run (splitKeepL s.toList []) st
    (splitKeepL_chunksOK s.toList [] (by simp))
  rwa [splitKeepL_flatten, List.reverse_nil, List.nil_append] at hr

/-- Witness for C8: writing `"a\nb\nc"` from line 1 with window `[2, 2]`
emits only the middle line, while the cursor still ends at `(3, 1)`. -/
theorem c8_witness :
    (write "a\nb\nc" stWindow).out = "b\n" ∧
    ((write "a\nb\nc" stWindow).outputLine, (write "a\nb\nc" stWindow).outputCol) = (3, 1) := by
  obtain ⟨h1, h2⟩ := c8_window_bookkeeping "a\nb\nc" stWindow rfl
  constructor
  · rw [h2]; decide
  · rw [h1]; decide

/-! ## Claim theorems: scoped capture (C9) -/

/-- C9: every scoped-capture redirection restores the previously active
emission target (`mode`) and the cursor on every exit path — the restored
values do not depend on the body's outcome, and the body's failure, if any,
is passed through unchanged; nested captures restore in stack order, the
inner one re-establishing the outer capture buffer. -/
theorem c9_capture_restores (body : St → St × Option Err) (st : St) :
    (captureWrite body st).1.mode = st.mode ∧
    (captureWrite body st).1.outputLine = st.outputLine ∧
    (captureWrite body st).1.outputCol = st.outputCol ∧
    (captureWrite body st).2.1 = (body { st with mode := Mode.buf "" }).2 ∧
    (captureWrite (fun s1 => ((captureWrite body s1).1, (captureWrite body s1).2.1)) st).1.mode
      = st.mode := by
  refine ⟨rfl, rfl, rfl, rfl, rfl⟩

/-! ## Claim theorems: the parenthesization guard (C3) -/

/-- C3: the guard fires exactly when the layout condition (operands on
different original lines, zero nesting depth, node position lexically after
the cursor) or the precedence condition (stack top strictly greater than
the operator's precedence) holds; firing writes `'('`, pushes the `-1`
sentinel and increments the depth, not firing pushes the operator's
precedence; on exit, firing writes `')'`, decrements the depth and pops,
not firing only pops. -/
lemma autoParensEnter_fires (node left right : Node) (op : Operator) (st : St) :
    (autoParensEnter node left right op st).1 =
      ((decide (left.lineno ≠ right.lineno) && decide (st.pLevel = 0) &&
          lexGt (node.lineno, node.col) (st.outputLine, st.outputCol)) ||
        decide (st.precStack.headD 0 > precedence op)) := by
  unfold autoParensEnter
  by_cases h1 : ((decide (left.lineno ≠ right.lineno) && decide (st.pLevel = 0) &&
        lexGt (node.lineno, node.col) (st.outputLine, st.outputCol)) ||
      decide (st.precStack.headD 0 > precedence op)) = true
  · rw [if_pos h1, h1]
  · rw [if_neg h1]
    simp only [Bool.not_eq_true] at h1
    rw [h1]

lemma autoParensEnter_state_true (node left right : Node) (op : Operator) (st : St)
    (hf : (autoParensEnter node left right op st).1 = true) :
    (autoParensEnter node left right op st).2 =
      { write "(" st with
          precStack := -1 :: (write "(" st).precStack,
          pLevel := (write "(" st).pLevel + 1 } := by
  rw [autoParensEnter_fires] at hf
  unfold autoParensEnter
  rw [if_pos hf]

lemma autoParensEnter_state_false (node left right : Node) (op : Operator) (st : St)
    (hf : (autoParensEnter node left right op st).1 = false) :
    (autoParensEnter node left right op st).2 =
      { st with precStack := precedence op :: st.precStack } := by
  rw [autoParensEnter_fires] at hf
  unfold autoParensEnter
  rw [if_neg (by rw [hf]; exact Bool.false_ne_true)]

theorem c3_auto_parens (node left right : Node) (op : Operator) (st : St)
    (h : st.precStack ≠ []) :
    ((autoParensEnter node left right op st).1 = true ↔
      ((left.lineno ≠ right.lineno ∧ st.pLevel = 0 ∧
          lexGt (node.lineno, node.col) (st.outputLine, st.outputCol) = true) ∨
        (∃ p rest, st.precStack = p :: rest ∧ p > precedence op))) ∧
    ((autoParensEnter node left right op st).1 = true →
      (autoParensEnter node left right op st).2 =
        { write "(" st with
            precStack := -1 :: (write "(" st).precStack,
            pLevel := (write "(" st).pLevel + 1 }) ∧
    ((autoParensEnter node left right op st).1 = false →
      (autoParensEnter node left right op st).2 =
        { st with precStack := precedence op :: st.precStack }) ∧
    (∀ st2 : St, autoParensExit true st2 =
        { write ")" st2 with
            pLevel := (write ")" st2).pLevel - 1,
            precStack := (write ")" st2).precStack.tail }) ∧
    (∀ st2 : St, autoParensExit false st2 = { st2 with precStack := st2.precStack.tail }) := by
  obtain ⟨p, rest, hpr⟩ := List.exists_cons_of_ne_nil h
  have hhead : st.precStack.headD 0 = p := by rw [hpr]; rfl
  refine ⟨?_, autoParensEnter_state_true node left right op st,
    autoParensEnter_state_false node left right op st, fun st2 => rfl, fun st2 => rfl⟩
  rw [autoParensEnter_fires]
  simp only [Bool.or_eq_true, Bool.and_eq_true, decide_eq_true_eq]
  constructor
  · rintro (⟨⟨ha, hb⟩, hc⟩ | hgt)
    · exact Or.inl ⟨ha, hb, hc⟩
    · exact Or.inr ⟨p, rest, hpr, hhead ▸ hgt⟩
  · rintro (⟨ha, hb, hc⟩ | ⟨p', rest', hpr', hgt⟩)
    · exact Or.inl ⟨⟨ha, hb⟩, hc⟩
    · refine Or.inr ?_
      rw [hpr'] at hpr
      obtain ⟨hpe, -⟩ := (List.cons.injEq ..).mp hpr
      rw [hhead, ← hpe]
      exact hgt

/-- Witness for C3: at `stHigh` (stack top 15) the guard fires for `a + b`
(precedence 10), by the precedence condition. -/
theorem c3_witness :
    (autoParensEnter exArith (Node.nName "a" 1 0) (Node.nName "b" 1 4) .add stHigh).1 = true :=
  (c3_auto_parens exArith (Node.nName "a" 1 0) (Node.nName "b" 1 4) .add stHigh
      (by decide)).1.mpr (Or.inr ⟨15, [-1], rfl, by decide⟩)

/-! ## Claim theorems: escaping (C10) -/

lemma hexDigit_not_brace (n : Nat) : isBrace (hexDigit n) = false := by
  unfold hexDigit
  rcases Nat.lt_or_ge n 16 with h | h
  · interval_cases n <;> decide
  · rw [List.getD_eq_default]
    · decide
    · simpa using h

lemma escapeStringPart_eq (s : String) :
    escapeStringPart s = String.mk (s.toList.flatMap (pyEscChar squote)) := by
  unfold escapeStringPart pyReprL
  have hcond : ¬(('"' :: s.toList).contains squote ∧ ¬('"' :: s.toList).contains '"') := by
    intro ⟨_, hc⟩
    exact hc (by simp [List.contains_cons])
  rw [if_neg hcond]
  show String.mk ((squote :: (('"' :: s.toList).flatMap (pyEscChar squote) ++ [squote])).drop 2).dropLast = _
  have hesc : pyEscChar squote '"' = ['"'] := by decide
  rw [List.flatMap_cons, hesc]
  show String.mk ((squote :: '"' :: (s.toList.flatMap (pyEscChar squote) ++ [squote])).drop 2).dropLast = _
  rw [List.drop_succ_cons, List.drop_succ_cons, List.drop_zero, List.dropLast_concat]

lemma pyEscChar_braces (c : Char) :
    (pyEscChar squote c).filter isBrace = [c].filter isBrace := by
  unfold pyEscChar
  split_ifs with h1 h2 h3 h4 h5 h6
  · subst h1; decide
  · subst h2; decide
  · subst h3; decide
  · subst h4; decide
  · subst h5; decide
  · have hc : isBrace c = false := by
      rcases Bool.eq_false_or_eq_true (isBrace c) with hb | hb
      swap
      · exact hb
      · exfalso
        have : c = '\x7b' ∨ c = '\x7d' := by
          simpa [isBrace, Bool.or_eq_true, decide_eq_true_eq] using hb
        rcases this with he | he <;> subst he <;> rcases h6 with h' | h' <;> revert h' <;> decide
    have hx : ('\\' :: 'x' :: hex2 c.toNat).filter isBrace = [] := by
      have e1 : isBrace '\\' = false := rfl
      have e2 : isBrace 'x' = false := rfl
      simp [hex2, List.filter_cons, e1, e2, hexDigit_not_brace]
    rw [hx]
    simp [List.filter_cons, hc]
  · rfl

lemma flatMap_esc_braces (cs : List Char) :
    (cs.flatMap (pyEscChar squote)).filter isBrace = cs.filter isBrace := by
  induction cs with
  | nil => rfl
  | cons c rest ih =>
    rw [List.flatMap_cons, List.filter_append, ih, pyEscChar_braces]
    show [c].filter isBrace ++ rest.filter isBrace = List.filter isBrace (c :: rest)
    cases h : isBrace c <;> simp [List.filter, h]

/-- C10: the escaping function leaves brace characters exactly where and as
often as they occur in its input (the brace subsequence is preserved, never
doubled or escaped); concretely, rewriting `'%s}' % (x,)` emits the literal
`}` of the template verbatim inside the produced interpolated literal. -/
theorem c10_brace_preservation :
    (∀ s : String,
      (escapeStringPart s).toList.filter isBrace = s.toList.filter isBrace) ∧
    (visit 9 exBrace initSt).1.out = "f" ++ sq ++ "\x7bx\x7d\x7d" ++ sq := by
  constructor
  · intro s
    rw [escapeStringPart_eq]
    exact flatMap_esc_braces s.toList
  · decide

/-! ## Claim theorems: rendering interpolated-string literals (C6) -/

/-- Counterexample for C6: rendering the already-rewritten literal `f'hi'`
emits the `repr` dump of its value-node list, which is not the original
source text — output does not equal input. -/
theorem c6_counterexample :
    (visit 3 exJoined initSt).1.out = "[<_ast.Str object>]" ∧
    (visit 3 exJoined initSt).1.out ≠ "f" ++ sq ++ "hi" ++ sq := by
  exact ⟨rfl, by decide⟩

/-- C6 (amended): the format rewrite triggers only on the percent pattern —
on any other node `make_fstring` declines and no rewrite occurs — but an
interpolated-string-literal node is rendered as the `repr` of its value
list (`visit_JoinedStr`), not as its original source text, so the output
for already-rewritten input differs from that input. -/
theorem c6_no_rewrite_dump :
    (∀ (rec : Node → St → St × Option Err) (node : Node) (st : St),
        isPercentPattern node = false → makeFstringW rec node st = (st, .na)) ∧
    (visit 3 exJoined initSt).1.out = pyReprNodeList [Node.nStr "hi" 1 2] ∧
    pyReprNodeList [Node.nStr "hi" 1 2] ≠ "f" ++ sq ++ "hi" ++ sq := by
  refine ⟨?_, rfl, by decide⟩
  intro rec node st h
  cases node
  case nBinOp l op r ln c =>
    cases l
    case nStr s sl sc =>
      cases op
      case mod => simp [isPercentPattern] at h
      all_goals rfl
    all_goals rfl
  all_goals rfl

/-- Witness for C6: `make_fstring` declines on the interpolated-literal
node itself. -/
theorem c6_witness : makeFstringW (visit 2) exJoined initSt = (initSt, .na) :=
  c6_no_rewrite_dump.1 (visit 2) exJoined initSt (by decide)

/-! ## Claim theorems: render positions of substituted arguments (C7) -/

/-- Counterexample for C7: after rewriting `'%s' % (x,)` (with `x` recorded
at `(1, 8)`), the argument node's stored position has been overwritten with
the output cursor `(1, 3)` — the tree does not retain its recorded
positions. -/
theorem c7_counterexample :
    (makeFstring 9 exMutate initSt).2 = MfRes.done [Node.nName "x" 1 3] ∧
    ((1 : Int), (3 : Int)) ≠ ((1 : Int), (8 : Int)) := by
  exact ⟨rfl, by decide⟩

/-- C7 (amended): each substituted argument is indeed rendered at a render
position equal to the output cursor just after its opening brace, but that
position is conveyed by overwriting the argument node's stored
`lineno`/`col_offset` in place, and the overwrite persists after the
rewrite; concretely `'%r' % (y,)` renders to `f'{y!r}'` with `y`'s stored
position left at the cursor position `(1, 3)` instead of its recorded
`(1, 8)`. -/
theorem c7_render_position_mutation :
    (∀ (rec : Node → St → St × Option Err) (a : Node) (t : Char) (rest : List Part) (st : St),
        (renderPartsW rec (.sub a t :: rest) st).2.2.head? =
          some (a.setPos (write "\x7b" st).outputLine (write "\x7b" st).outputCol)) ∧
    (visit 9 exRepr initSt).1.out = "f" ++ sq ++ "\x7by!r\x7d" ++ sq ∧
    (makeFstring 9 exRepr initSt).2 = MfRes.done [Node.nName "y" 1 3] := by
  refine ⟨?_, by decide, rfl⟩
  intro rec a t rest st
  rcases hc : captureWrite (rec (a.setPos (write "\x7b" st).outputLine
      (write "\x7b" st).outputCol)) (write "\x7b" st) with ⟨st2, e, cap⟩
  cases e <;> simp [renderPartsW, hc]

/-! ## Claim theorems: uniformity of the guard (C4) -/

/-- Counterexample for C4: in a state whose precedence-stack top (15)
exceeds both the comparison precedence (5) and the additive precedence
(10), rendering the comparison `a < b` emits no grouping parentheses while
rendering `a + b` does — the parenthesization decision is not applied to
comparison chains. -/
theorem c4_counterexample :
    (visit 5 exCompare stHigh).1.out = "a < b" ∧
    ((visit 5 exCompare stHigh).1.out.toList.contains '(') = false ∧
    (visit 5 exArith stHigh).1.out = "(a + b)" := by
  exact ⟨rfl, by decide, rfl⟩

/-- C4 (amended): the grouping decision is applied to arithmetic binary
expressions and to `and`/`or` expressions, whose renderings consult
`auto_parens`, but not to comparison chains: `visit_Compare` renders the
left operand and then each (operator, comparator) pair with its printable
symbol, with no parenthesization decision — as witnessed concretely by the
comparison leaving the precedence stack and depth untouched while emitting
no parentheses in a state where the guard would fire. -/
theorem c4_compare_no_guard :
    (∀ (fuel : Nat) (l : Node) (prs : List (CmpOp × Node)) (ln c : Int) (st : St),
        visit (fuel + 1) (.nCompare l prs ln c) st =
          andThenE (visit fuel l st) (comparePairsW (visit fuel) prs)) ∧
    (∀ (fuel : Nat) (l : Node) (op : Operator) (r : Node) (ln c : Int) (st : St),
        visit (fuel + 1) (.nBinOp l op r ln c) st =
          match makeFstringW (visit fuel) (.nBinOp l op r ln c) st with
          | (st1, .done _) => (st1, none)
          | (st1, .err e) => (st1, some e)
          | (st1, .na) =>
            andThenE (visit fuel l (autoParensEnter (.nBinOp l op r ln c) l r op st1).2) fun st2 =>
              andThenE (visit fuel r (write (" " ++ binOpSymbol op ++ " ") st2)) fun st4 =>
                (autoParensExit (autoParensEnter (.nBinOp l op r ln c) l r op st1).1 st4, none)) ∧
    (∀ (fuel : Nat) (op : BoolOperator) (v0 : Node) (rest : List Node) (ln c : Int) (st : St),
        visit (fuel + 1) (.nBoolOp op (v0 :: rest) ln c) st =
          andThenE (boolValsW (visit fuel) (boolOpSymbol op) true (v0 :: rest)
              (autoParensEnter (.nBoolOp op (v0 :: rest) ln c) v0 (rest.getLastD v0)
                (boolToOperator op) st).2)
            fun st2 =>
              (autoParensExit (autoParensEnter (.nBoolOp op (v0 :: rest) ln c) v0 (rest.getLastD v0)
                (boolToOperator op) st).1 st2, none)) ∧
    (visit 5 exCompare stHigh).1.precStack = stHigh.precStack ∧
    (visit 5 exCompare stHigh).1.pLevel = stHigh.pLevel := by
  exact ⟨fun fuel l prs ln c st => rfl, fun fuel l op r ln c st => rfl,
    fun fuel op v0 rest ln c st => rfl, rfl, rfl⟩

/-! ## Lemmas about the template scan -/

lemma srOf_cons_pct (pre : String) (rest : List (String × Char)) :
    srOf ((pre, '%') :: rest) = srOf rest := by
  simp [srOf]

lemma srOf_cons_sr (pre : String) (t : Char) (rest : List (String × Char)) (h : t ≠ '%') :
    srOf ((pre, t) :: rest) = t :: srOf rest := by
  simp [srOf, h]

lemma supportedTypes_tail {m : String × Char} {rest : List (String × Char)}
    (h : supportedTypes (m :: rest)) : supportedTypes rest :=
  fun p hp => h p (List.mem_cons_of_mem _ hp)

lemma subsOf_lit (s : String) (ps : List Part) : subsOf (.lit s :: ps) = subsOf ps := rfl

lemma subsOf_sub (a : Node) (t : Char) (ps : List Part) :
    subsOf (.sub a t :: ps) = (a, t) :: subsOf ps := rfl

lemma scanLoop_ok : ∀ (ms : List (String × Char)) (args : List Node) (tl : String),
    supportedTypes ms →
    args.length = (srOf ms).length →
    ∃ ps, scanLoop ms args tl = .ok ps ∧ subsOf ps = args.zip (srOf ms) := by
  intro ms
  induction ms with
  | nil =>
    intro args tl _ hlen
    have hargs : args = [] := List.eq_nil_of_length_eq_zero (by simpa [srOf] using hlen)
    subst hargs
    exact ⟨[.lit tl], by simp [scanLoop], by simp [subsOf, srOf]⟩
  | cons m rest ih =>
    obtain ⟨pre, t⟩ := m
    intro args tl hall hlen
    have hallr := supportedTypes_tail hall
    by_cases hpct : t = '%'
    · subst hpct
      rw [srOf_cons_pct] at hlen ⊢
      obtain ⟨ps, hps, hsub⟩ := ih args tl hallr hlen
      refine ⟨.lit pre :: .lit "%" :: ps, ?_, ?_⟩
      · simp [scanLoop, hps, consPart]
      · rw [subsOf_lit, subsOf_lit]; exact hsub
    · have hsr : t = 's' ∨ t = 'r' := by
        rcases hall (pre, t) (List.mem_cons_self _ _) with h | h | h
        · exact absurd h hpct
        · exact Or.inl h
        · exact Or.inr h
      rw [srOf_cons_sr pre t rest hpct] at hlen ⊢
      cases args with
      | nil => simp at hlen
      | cons a args2 =>
        have hlen2 : args2.length = (srOf rest).length := by simpa using hlen
        obtain ⟨ps, hps, hsub⟩ := ih args2 tl hallr hlen2
        refine ⟨.lit pre :: .sub a t :: ps, ?_, ?_⟩
        · simp [scanLoop, hpct, hsr, hps, consPart]
        · rw [subsOf_lit, subsOf_sub, hsub, List.zip_cons_cons]

lemma scanLoop_popEmpty : ∀ (ms : List (String × Char)) (args : List Node) (tl : String),
    supportedTypes ms →
    args.length < (srOf ms).length →
    scanLoop ms args tl = .popEmpty := by
  intro ms
  induction ms with
  | nil => intro args tl _ hlen; simp [srOf] at hlen
  | cons m rest ih =>
    obtain ⟨pre, t⟩ := m
    intro args tl hall hlen
    have hallr := supportedTypes_tail hall
    by_cases hpct : t = '%'
    · subst hpct
      rw [srOf_cons_pct] at hlen
      simp [scanLoop, ih args tl hallr hlen, consPart]
    · have hsr : t = 's' ∨ t = 'r' := by
        rcases hall (pre, t) (List.mem_cons_self _ _) with h | h | h
        · exact absurd h hpct
        · exact Or.inl h
        · exact Or.inr h
      rw [srOf_cons_sr pre t rest hpct] at hlen
      cases args with
      | nil => simp [scanLoop, hpct, hsr]
      | cons a args2 =>
        have hlen2 : args2.length < (srOf rest).length := by simpa using hlen
        simp [scanLoop, hpct, hsr, ih args2 tl hallr hlen2, consPart]

lemma scanLoop_leftover : ∀ (ms : List (String × Char)) (args : List Node) (tl : String),
    supportedTypes ms →
    (srOf ms).length < args.length →
    scanLoop ms args tl = .leftover := by
  intro ms
  induction ms with
  | nil =>
    intro args tl _ hlen
    have : args ≠ [] := by
      intro h; subst h; simp at hlen
    simp [scanLoop, List.isEmpty_iff, this]
  | cons m rest ih =>
    obtain ⟨pre, t⟩ := m
    intro args tl hall hlen
    have hallr := supportedTypes_tail hall
    by_cases hpct : t = '%'
    · subst hpct
      rw [srOf_cons_pct] at hlen
      simp [scanLoop, ih args tl hallr hlen, consPart]
    · have hsr : t = 's' ∨ t = 'r' := by
        rcases hall (pre, t) (List.mem_cons_self _ _) with h | h | h
        · exact absurd h hpct
        · exact Or.inl h
        · exact Or.inr h
      rw [srOf_cons_sr pre t rest hpct] at hlen
      cases args with
      | nil => simp at hlen
      | cons a args2 =>
        have hlen2 : (srOf rest).length < args2.length := by simpa using hlen
        simp [scanLoop, hpct, hsr, ih args2 tl hallr hlen2, consPart]

lemma scanLoop_bad : ∀ (ms1 : List (String × Char)) (pre : String) (t : Char)
    (ms2 : List (String × Char)) (args : List Node) (tl : String),
    supportedTypes ms1 →
    t ≠ '%' → t ≠ 's' → t ≠ 'r' →
    (srOf ms1).length ≤ args.length →
    scanLoop (ms1 ++ (pre, t) :: ms2) args tl = .bad := by
  intro ms1
  induction ms1 with
  | nil =>
    intro pre t ms2 args tl _ h1 h2 h3 _
    have : ¬(t = 's' ∨ t = 'r') := by rintro (h | h) <;> [exact h2 h; exact h3 h]
    simp [scanLoop, h1, this]
  | cons m rest ih =>
    obtain ⟨pre0, t0⟩ := m
    intro pre t ms2 args tl hall h1 h2 h3 hlen
    have hallr := supportedTypes_tail hall
    by_cases hpct : t0 = '%'
    · subst hpct
      rw [srOf_cons_pct] at hlen
      simp [scanLoop, ih pre t ms2 args tl hallr h1 h2 h3 hlen, consPart]
    · have hsr : t0 = 's' ∨ t0 = 'r' := by
        rcases hall (pre0, t0) (List.mem_cons_self _ _) with h | h | h
        · exact absurd h hpct
        · exact Or.inl h
        · exact Or.inr h
      rw [srOf_cons_sr pre0 t0 rest hpct] at hlen
      cases args with
      | nil => simp at hlen
      | cons a args2 =>
        have hlen2 : (srOf rest).length ≤ args2.length := by simpa using hlen
        simp [scanLoop, hpct, hsr, ih pre t ms2 args2 tl hallr h1 h2 h3 hlen2, consPart]

/-! ## Lemmas about `make_fstring` dispatch on the scan result -/

lemma makeFstringW_na_of_scan (rec : Node → St → St × Option Err)
    (s : String) (sl sc : Int) (r : Node) (ln c : Int) (st : St)
    (h : scanFormat s (argsOf r) = .bad ∨ scanFormat s (argsOf r) = .leftover) :
    makeFstringW rec (.nBinOp (.nStr s sl sc) .mod r ln c) st = (st, .na) := by
  show (match scanFormat s (argsOf r) with
    | .bad => (st, MfRes.na)
    | .leftover => (st, MfRes.na)
    | .popEmpty => (st, MfRes.err .indexError)
    | .ok ps =>
      match renderPartsW rec ps (print ("f" ++ sq) ln c st) with
      | (st2, some e, _) => (st2, MfRes.err e)
      | (st2, none, muts) => (write sq st2, MfRes.done muts)) = (st, MfRes.na)
  rcases h with h | h <;> rw [h]

lemma makeFstringW_raise_of_scan (rec : Node → St → St × Option Err)
    (s : String) (sl sc : Int) (r : Node) (ln c : Int) (st : St)
    (h : scanFormat s (argsOf r) = .popEmpty) :
    makeFstringW rec (.nBinOp (.nStr s sl sc) .mod r ln c) st = (st, .err .indexError) := by
  show (match scanFormat s (argsOf r) with
    | .bad => (st, MfRes.na)
    | .leftover => (st, MfRes.na)
    | .popEmpty => (st, MfRes.err .indexError)
    | .ok ps =>
      match renderPartsW rec ps (print ("f" ++ sq) ln c st) with
      | (st2, some e, _) => (st2, MfRes.err e)
      | (st2, none, muts) => (write sq st2, MfRes.done muts)) = (st, MfRes.err .indexError)
  rw [h]

lemma visit_binop_raise (fuel : Nat)
    (s : String) (sl sc : Int) (r : Node) (ln c : Int) (st : St)
    (h : scanFormat s (argsOf r) = .popEmpty) :
    visit (fuel + 1) (.nBinOp (.nStr s sl sc) .mod r ln c) st = (st, some .indexError) := by
  show (match makeFstringW (visit fuel) (.nBinOp (.nStr s sl sc) .mod r ln c) st with
    | (st1, .done _) => (st1, none)
    | (st1, .err e) => (st1, some e)
    | (st1, .na) =>
      andThenE (visit fuel (.nStr s sl sc)
          (autoParensEnter (.nBinOp (.nStr s sl sc) .mod r ln c) (.nStr s sl sc) r .mod st1).2)
        fun st2 =>
          andThenE (visit fuel r (write (" " ++ binOpSymbol .mod ++ " ") st2)) fun st4 =>
            (autoParensExit
              (autoParensEnter (.nBinOp (.nStr s sl sc) .mod r ln c) (.nStr s sl sc) r .mod st1).1
              st4, none)) = (st, some Err.indexError)
  rw [makeFstringW_raise_of_scan (visit fuel) s sl sc r ln c st h]

lemma visit_binop_fallback (fuel : Nat) (l : Node) (op : Operator) (r : Node)
    (ln c : Int) (st : St)
    (h : makeFstringW (visit fuel) (.nBinOp l op r ln c) st = (st, .na)) :
    visit (fuel + 1) (.nBinOp l op r ln c) st =
      andThenE (visit fuel l (autoParensEnter (.nBinOp l op r ln c) l r op st).2) fun st2 =>
        andThenE (visit fuel r (write (" " ++ binOpSymbol op ++ " ") st2)) fun st4 =>
          (autoParensExit (autoParensEnter (.nBinOp l op r ln c) l r op st).1 st4, none) := by
  show (match makeFstringW (visit fuel) (.nBinOp l op r ln c) st with
    | (st1, .done _) => (st1, none)
    | (st1, .err e) => (st1, some e)
    | (st1, .na) =>
      andThenE (visit fuel l (autoParensEnter (.nBinOp l op r ln c) l r op st1).2) fun st2 =>
        andThenE (visit fuel r (write (" " ++ binOpSymbol op ++ " ") st2)) fun st4 =>
          (autoParensExit (autoParensEnter (.nBinOp l op r ln c) l r op st1).1 st4, none)) = _
  rw [h]

/-! ## Claim theorems: argument-count mismatch (C2) -/

/-- Counterexample for C2: for `'%s%s' % (x,)` (M = 2 directives, K = 1
argument, M ≠ K) the rewrite is not silently abandoned — `arguments.pop(0)`
raises `IndexError`, the failure propagates, and nothing at all is emitted
for the expression (in particular not the original percent expression). -/
theorem c2_counterexample :
    (visit 9 exTwoOne initSt).2 = some Err.indexError ∧
    (visit 9 exTwoOne initSt).1.out = "" :=
  ⟨rfl, rfl⟩

/-- C2 (amended): for a template whose directives are all supported, a
mismatch is handled asymmetrically.  When the arguments outnumber the
argument-consuming directives (K > M) the rewrite is silently abandoned
(`make_fstring` returns `None`) and the caller renders the original
percent-operator expression through the ordinary binary-operator path;
when the directives outnumber the arguments (M > K) an `IndexError` is
raised before any output and propagates, aborting the render of the
expression.  Concretely `'%s' % (a, b)` is emitted unchanged. -/
theorem c2_mismatch_behaviour :
    (∀ (fuel : Nat) (s : String) (sl sc : Int) (r : Node) (ln c : Int) (st : St),
        supportedTypes (findMatches s).1 →
        (srOf (findMatches s).1).length < (argsOf r).length →
        makeFstringW (visit fuel) (.nBinOp (.nStr s sl sc) .mod r ln c) st = (st, .na) ∧
        visit (fuel + 1) (.nBinOp (.nStr s sl sc) .mod r ln c) st =
          andThenE (visit fuel (.nStr s sl sc)
              (autoParensEnter (.nBinOp (.nStr s sl sc) .mod r ln c) (.nStr s sl sc) r .mod st).2)
            fun st2 =>
              andThenE (visit fuel r (write (" " ++ binOpSymbol .mod ++ " ") st2)) fun st4 =>
                (autoParensExit
                  (autoParensEnter (.nBinOp (.nStr s sl sc) .mod r ln c) (.nStr s sl sc) r
                    .mod st).1 st4, none)) ∧
    (∀ (fuel : Nat) (s : String) (sl sc : Int) (r : Node) (ln c : Int) (st : St),
        supportedTypes (findMatches s).1 →
        (argsOf r).length < (srOf (findMatches s).1).length →
        visit (fuel + 1) (.nBinOp (.nStr s sl sc) .mod r ln c) st = (st, some .indexError)) ∧
    (visit 9 exOneTwo initSt).1.out = sq ++ "%s" ++ sq ++ " % (a, b)" ∧
    (visit 9 exOneTwo initSt).2 = none := by
  refine ⟨?_, ?_, by decide, rfl⟩
  · intro fuel s sl sc r ln c st hsup hlt
    have hscan : scanFormat s (argsOf r) = .leftover :=
      scanLoop_leftover (findMatches s).1 (argsOf r) (findMatches s).2 hsup hlt
    have hna := makeFstringW_na_of_scan (visit fuel) s sl sc r ln c st (Or.inr hscan)
    exact ⟨hna, visit_binop_fallback fuel (.nStr s sl sc) .mod r ln c st hna⟩
  · intro fuel s sl sc r ln c st hsup hlt
    have hscan : scanFormat s (argsOf r) = .popEmpty :=
      scanLoop_popEmpty (findMatches s).1 (argsOf r) (findMatches s).2 hsup hlt
    exact visit_binop_raise fuel s sl sc r ln c st hscan

/-- Witness for C2: the two amended branches at concrete inputs — `'%s'`
against two arguments declines silently, `'%s%s'` against one argument
raises. -/
theorem c2_witness :
    makeFstringW (visit 3) (.nBinOp (.nStr "%s" 1 0) .mod
      (.nTuple [.nName "a" 1 8, .nName "b" 1 11] 1 8) 1 0) initSt = (initSt, .na) ∧
    visit 4 (.nBinOp (.nStr "%s%s" 1 0) .mod (.nTuple [.nName "x" 1 11] 1 11) 1 0) initSt =
      (initSt, some .indexError) := by
  constructor
  · exact (c2_mismatch_behaviour.1 3 "%s" 1 0 (.nTuple [.nName "a" 1 8, .nName "b" 1 11] 1 8)
      1 0 initSt (by unfold supportedTypes; decide) (by decide)).1
  · exact c2_mismatch_behaviour.2.1 3 "%s%s" 1 0 (.nTuple [.nName "x" 1 11] 1 11) 1 0 initSt
      (by unfold supportedTypes; decide) (by decide)

/-! ## Claim theorems: unsupported conversion types (C5) -/

/-- Counterexample for C5: `'%s%d' % ()` contains the unsupported directive
`%d`, yet the rewrite is not abandoned with the original expression
rendered — the display directive before it exhausts the empty argument
list first, `IndexError` propagates, and nothing is emitted. -/
theorem c5_counterexample :
    (visit 9 exBadAfterEmpty initSt).2 = some Err.indexError ∧
    (visit 9 exBadAfterEmpty initSt).1.out = "" :=
  ⟨rfl, rfl⟩

/-- C5 (amended): if the scan reaches a directive whose conversion type is
neither display nor representation nor the percent escape — that is, every
earlier directive is supported and the arguments are not exhausted before
the unsupported one — the rewrite is abandoned (`make_fstring` returns
`None`) and the caller renders the original percent-operator expression
through the ordinary binary-operator path; concretely `'%d' % (n,)` is
emitted unchanged. -/
theorem c5_unsupported_fallback :
    (∀ (fuel : Nat) (s : String) (sl sc : Int) (r : Node) (ln c : Int) (st : St)
        (ms1 : List (String × Char)) (pre : String) (t : Char) (ms2 : List (String × Char)),
        (findMatches s).1 = ms1 ++ (pre, t) :: ms2 →
        supportedTypes ms1 →
        t ≠ '%' → t ≠ 's' → t ≠ 'r' →
        (srOf ms1).length ≤ (argsOf r).length →
        makeFstringW (visit fuel) (.nBinOp (.nStr s sl sc) .mod r ln c) st = (st, .na) ∧
        visit (fuel + 1) (.nBinOp (.nStr s sl sc) .mod r ln c) st =
          andThenE (visit fuel (.nStr s sl sc)
              (autoParensEnter (.nBinOp (.nStr s sl sc) .mod r ln c) (.nStr s sl sc) r .mod st).2)
            fun st2 =>
              andThenE (visit fuel r (write (" " ++ binOpSymbol .mod ++ " ") st2)) fun st4 =>
                (autoParensExit
                  (autoParensEnter (.nBinOp (.nStr s sl sc) .mod r ln c) (.nStr s sl sc) r
                    .mod st).1 st4, none)) ∧
    (visit 9 exNumeric initSt).1.out = sq ++ "%d" ++ sq ++ " % (n,)" ∧
    (visit 9 exNumeric initSt).2 = none := by
  refine ⟨?_, by decide, rfl⟩
  intro fuel s sl sc r ln c st ms1 pre t ms2 hms hsup h1 h2 h3 hle
  have hscan : scanFormat s (argsOf r) = .bad := by
    unfold scanFormat
    rw [hms]
    exact scanLoop_bad ms1 pre t ms2 (argsOf r) (findMatches s).2 hsup h1 h2 h3 hle
  have hna := makeFstringW_na_of_scan (visit fuel) s sl sc r ln c st (Or.inl hscan)
  exact ⟨hna, visit_binop_fallback fuel (.nStr s sl sc) .mod r ln c st hna⟩

/-- Witness for C5: the amended fallback at the concrete input
`'%d' % (n,)`. -/
theorem c5_witness :
    makeFstringW (visit 3) (.nBinOp (.nStr "%d" 1 0) .mod
      (.nTuple [.nName "n" 1 8] 1 8) 1 0) initSt = (initSt, .na) :=
  (c5_unsupported_fallback.1 3 "%d" 1 0 (.nTuple [.nName "n" 1 8] 1 8) 1 0 initSt
    [] "" 'd' [] (by decide) (by unfold supportedTypes; decide) (by decide) (by decide) (by decide)
    (by decide)).1

/-! ## The capture frame: a captured sub-render never touches the real
output, the window bounds or the cursor -/

lemma bufFrame_trans {st st1 st2 : St} (h1 : BufFrame st st1) (h2 : BufFrame st1 st2) :
    BufFrame st st2 := by
  obtain ⟨a1, b1, c1, d1, e1, -⟩ := h1
  obtain ⟨a2, b2, c2, d2, e2, w2⟩ := h2
  exact ⟨a2.trans a1, b2.trans b1, c2.trans c1, d2.trans d1, e2.trans e1, w2⟩

lemma bufFrame_refl {st : St} {b : String} (h : st.mode = Mode.buf b) : BufFrame st st :=
  ⟨rfl, rfl, rfl, rfl, rfl, b, h⟩

lemma write_buf {st : St} {b : String} (h : st.mode = Mode.buf b) (s : String) :
    write s st = { st with mode := Mode.buf (b ++ s) } := by
  unfold write
  rw [h]

lemma print_buf {st : St} {b : String} (h : st.mode = Mode.buf b) (s : String) (l c : Int) :
    print s l c st = write s st := by
  unfold print
  rw [h]

lemma bufFrame_mode {st st2 : St} (h : BufFrame st st2) : ∃ b, st2.mode = Mode.buf b :=
  h.2.2.2.2.2

lemma bufFrame_write {st0 st : St} (h : BufFrame st0 st) (s : String) :
    BufFrame st0 (write s st) := by
  obtain ⟨b, hb⟩ := bufFrame_mode h
  rw [write_buf hb]
  exact bufFrame_trans h ⟨rfl, rfl, rfl, rfl, rfl, b ++ s, rfl⟩

lemma bufFrame_print {st0 st : St} (h : BufFrame st0 st) (s : String) (l c : Int) :
    BufFrame st0 (print s l c st) := by
  obtain ⟨b, hb⟩ := bufFrame_mode h
  rw [print_buf hb]
  exact bufFrame_write h s

lemma bufFrame_rec {rec : Node → St → St × Option Err} (hrec : BufSafeN rec)
    {st0 st : St} (h : BufFrame st0 st) (n : Node) :
    BufFrame st0 (rec n st).1 := by
  obtain ⟨b, hb⟩ := bufFrame_mode h
  exact bufFrame_trans h (hrec n st b hb)

lemma bufFrame_andThenE {st0 : St} {r : St × Option Err} (hr : BufFrame st0 r.1)
    {k : St → St × Option Err} (hk : ∀ st2, BufFrame st0 st2 → BufFrame st0 (k st2).1) :
    BufFrame st0 (andThenE r k).1 := by
  rcases r with ⟨st1, e⟩
  cases e with
  | none => exact hk st1 hr
  | some e => exact hr

lemma bufFrame_captureWrite {st0 st : St} (h : BufFrame st0 st)
    {body : St → St × Option Err} (hbody : BufSafe body) :
    BufFrame st0 (captureWrite body st).1 := by
  have hfr := hbody { st with mode := Mode.buf "" } "" rfl
  obtain ⟨ho, hf, hl, -, -, -⟩ := hfr
  obtain ⟨b, hb⟩ := bufFrame_mode h
  refine bufFrame_trans h ⟨?_, ?_, ?_, rfl, rfl, b, hb⟩ <;> assumption

lemma bufFrame_autoParensEnter {st0 st : St} (h : BufFrame st0 st)
    (node l r : Node) (op : Operator) :
    BufFrame st0 (autoParensEnter node l r op st).2 := by
  unfold autoParensEnter
  split_ifs with hc
  · have hw := bufFrame_write h "("
    obtain ⟨a1, b1, c1, d1, e1, bw, hbw⟩ := hw
    exact ⟨a1, b1, c1, d1, e1, bw, hbw⟩
  · obtain ⟨a1, b1, c1, d1, e1, bw, hbw⟩ := h
    exact ⟨a1, b1, c1, d1, e1, bw, hbw⟩

lemma bufFrame_autoParensExit {st0 st : St} (h : BufFrame st0 st) (p : Bool) :
    BufFrame st0 (autoParensExit p st) := by
  unfold autoParensExit
  cases p
  · obtain ⟨a1, b1, c1, d1, e1, bw, hbw⟩ := h
    exact ⟨a1, b1, c1, d1, e1, bw, hbw⟩
  · have hw := bufFrame_write h ")"
    obtain ⟨a1, b1, c1, d1, e1, bw, hbw⟩ := hw
    exact ⟨a1, b1, c1, d1, e1, bw, hbw⟩

lemma bufFrame_commasepW {rec : Node → St → St × Option Err} (hrec : BufSafeN rec) :
    ∀ (xs : List Node) (first : Bool) {st0 st : St}, BufFrame st0 st →
      BufFrame st0 (commasepW rec first xs st).1 := by
  intro xs
  induction xs with
  | nil => intro first st0 st h; exact h
  | cons a rest ih =>
    intro first st0 st h
    show BufFrame st0 (andThenE (rec a (if first then st else write "," st)) _).1
    have h1 : BufFrame st0 (if first then st else write "," st) := by
      cases first
      · exact bufFrame_write h ","
      · exact h
    exact bufFrame_andThenE (bufFrame_rec hrec h1 a) fun st2 h2 => ih false h2

lemma bufFrame_keywordsW {rec : Node → St → St × Option Err} (hrec : BufSafeN rec) :
    ∀ (kws : List (Option String × Node)) (prev : Bool) {st0 st : St}, BufFrame st0 st →
      BufFrame st0 (keywordsW rec prev kws st).1 := by
  intro kws
  induction kws with
  | nil => intro prev st0 st h; exact h
  | cons kv rest ih =>
    obtain ⟨k, v⟩ := kv
    intro prev st0 st h
    have h1 : BufFrame st0 (if prev then write "," st else st) := by
      cases prev
      · exact h
      · exact bufFrame_write h ","
    have h2 : BufFrame st0 (match k with
        | none => write "**" (if prev then write "," st else st)
        | some kk => write (kk ++ "=") (if prev then write "," st else st)) := by
      cases k
      · exact bufFrame_write h1 "**"
      · exact bufFrame_write h1 _
    exact bufFrame_andThenE (bufFrame_rec hrec h2 v) fun st3 h3 => ih true h3

lemma bufFrame_tupleRestW {rec : Node → St → St × Option Err} (hrec : BufSafeN rec) :
    ∀ (xs : List Node) {st0 st : St}, BufFrame st0 st →
      BufFrame st0 (tupleRestW rec xs st).1 := by
  intro xs
  induction xs with
  | nil => intro st0 st h; exact h
  | cons a rest ih =>
    intro st0 st h
    exact bufFrame_andThenE (bufFrame_rec hrec (bufFrame_write h ",") a) fun st2 h2 => ih h2

lemma bufFrame_comparePairsW {rec : Node → St → St × Option Err} (hrec : BufSafeN rec) :
    ∀ (prs : List (CmpOp × Node)) {st0 st : St}, BufFrame st0 st →
      BufFrame st0 (comparePairsW rec prs st).1 := by
  intro prs
  induction prs with
  | nil => intro st0 st h; exact h
  | cons pr rest ih =>
    obtain ⟨op, right⟩ := pr
    intro st0 st h
    exact bufFrame_andThenE (bufFrame_rec hrec (bufFrame_write h _) right) fun st2 h2 => ih h2

lemma bufFrame_boolValsW {rec : Node → St → St × Option Err} (hrec : BufSafeN rec) (sep : String) :
    ∀ (xs : List Node) (first : Bool) {st0 st : St}, BufFrame st0 st →
      BufFrame st0 (boolValsW rec sep first xs st).1 := by
  intro xs
  induction xs with
  | nil => intro first st0 st h; exact h
  | cons v rest ih =>
    intro first st0 st h
    have h1 : BufFrame st0 (if first then st else write sep st) := by
      cases first
      · exact bufFrame_write h sep
      · exact h
    exact bufFrame_andThenE (bufFrame_rec hrec h1 v) fun st2 h2 => ih false h2

lemma bufFrame_renderPartsW {rec : Node → St → St × Option Err} (hrec : BufSafeN rec) :
    ∀ (ps : List Part) {st0 st : St}, BufFrame st0 st →
      BufFrame st0 (renderPartsW rec ps st).1 := by
  intro ps
  induction ps with
  | nil => intro st0 st h; exact h
  | cons p rest ih =>
    intro st0 st h
    cases p with
    | lit s => exact ih (bufFrame_write h (escapeStringPart s))
    | sub a t =>
      have h1 := bufFrame_write h "\x7b"
      have hcap : BufFrame st0 (captureWrite (rec (a.setPos (write "\x7b" st).outputLine
          (write "\x7b" st).outputCol)) (write "\x7b" st)).1 :=
        bufFrame_captureWrite h1 (hrec _)
      show BufFrame st0 (match captureWrite (rec (a.setPos (write "\x7b" st).outputLine
          (write "\x7b" st).outputCol)) (write "\x7b" st) with
        | (st2, some e, _) => (st2, some e, [a.setPos (write "\x7b" st).outputLine
            (write "\x7b" st).outputCol])
        | (st2, none, cap) =>
          ((renderPartsW rec rest (write "\x7d"
              (if t ≠ 's' then write ("!" ++ t.toString) (write (escapeStringPart cap) st2)
               else write (escapeStringPart cap) st2))).1,
           (renderPartsW rec rest (write "\x7d"
              (if t ≠ 's' then write ("!" ++ t.toString) (write (escapeStringPart cap) st2)
               else write (escapeStringPart cap) st2))).2.1,
           a.setPos (write "\x7b" st).outputLine (write "\x7b" st).outputCol ::
             (renderPartsW rec rest (write "\x7d"
              (if t ≠ 's' then write ("!" ++ t.toString) (write (escapeStringPart cap) st2)
               else write (escapeStringPart cap) st2))).2.2)).1
      rcases hc : captureWrite (rec (a.setPos (write "\x7b" st).outputLine
          (write "\x7b" st).outputCol)) (write "\x7b" st) with ⟨st2, e, cap⟩
      rw [hc] at hcap
      cases e with
      | some e => exact hcap
      | none =>
        have h3 : BufFrame st0 (write (escapeStringPart cap) st2) := bufFrame_write hcap _
        have h4 : BufFrame st0 (if t ≠ 's' then write ("!" ++ t.toString)
            (write (escapeStringPart cap) st2) else write (escapeStringPart cap) st2) := by
          split_ifs
          · exact bufFrame_write h3 _
          · exact h3
        exact ih (bufFrame_write h4 "\x7d")

lemma bufFrame_makeFstringW {rec : Node → St → St × Option Err} (hrec : BufSafeN rec)
    (node : Node) {st : St} {b : String} (h : st.mode = Mode.buf b) :
    BufFrame st (makeFstringW rec node st).1 := by
  have h0 : BufFrame st st := bufFrame_refl h
  cases node
  case nBinOp l op r ln c =>
    cases l
    case nStr s sl sc =>
      cases op
      case mod =>
        show BufFrame st (match scanFormat s (argsOf r) with
          | .bad => (st, MfRes.na)
          | .leftover => (st, MfRes.na)
          | .popEmpty => (st, MfRes.err .indexError)
          | .ok ps =>
            match renderPartsW rec ps (print ("f" ++ sq) ln c st) with
            | (st2, some e, _) => (st2, MfRes.err e)
            | (st2, none, muts) => (write sq st2, MfRes.done muts)).1
        rcases scanFormat s (argsOf r) with ps | - | - | -
        case bad => exact h0
        case leftover => exact h0
        case popEmpty => exact h0
        case ok =>
          show BufFrame st (match renderPartsW rec ps (print ("f" ++ sq) ln c st) with
            | (st2, some e, _) => (st2, MfRes.err e)
            | (st2, none, muts) => (write sq st2, MfRes.done muts)).1
          have hr := bufFrame_renderPartsW hrec ps (bufFrame_print h0 ("f" ++ sq) ln c)
          rcases hre : renderPartsW rec ps (print ("f" ++ sq) ln c st) with ⟨st2, e, muts⟩
          rw [hre] at hr
          cases e with
          | some e => exact hr
          | none => exact bufFrame_write hr sq
      all_goals exact h0
    all_goals exact h0
  all_goals exact h0

lemma bufSafeN_visitStep {rec : Node → St → St × Option Err} (hrec : BufSafeN rec) :
    BufSafeN (visitStep rec) := by
  intro node st b h
  have h0 : BufFrame st st := bufFrame_refl h
  cases node
  case nName id ln c => exact bufFrame_print h0 id ln c
  case nNum n ln c => exact bufFrame_print h0 _ ln c
  case nStr s ln c => exact bufFrame_print h0 _ ln c
  case nJoinedStr vs ln c => exact bufFrame_print h0 _ ln c
  case nAttribute v attr ln c =>
    exact bufFrame_andThenE (bufFrame_rec hrec h0 v) fun st1 h1 =>
      bufFrame_write (bufFrame_write h1 ".") attr
  case nSubscript v sl ln c =>
    exact bufFrame_andThenE (bufFrame_rec hrec h0 v) fun st1 h1 =>
      bufFrame_andThenE (bufFrame_rec hrec (bufFrame_write h1 "[") sl) fun st3 h3 =>
        bufFrame_write h3 "]"
  case nIndex v ln c => exact bufFrame_rec hrec h0 v
  case nSlice lo hi stp ln c =>
    have h1 : BufFrame st (match lo with
        | some n => rec n st
        | none => (st, none)).1 := by
      cases lo
      · exact h0
      · exact bufFrame_rec hrec h0 _
    refine bufFrame_andThenE h1 fun st1 hst1 => ?_
    have h2 : BufFrame st (match hi with
        | some n => rec n (write ":" st1)
        | none => (write ":" st1, none)).1 := by
      cases hi
      · exact bufFrame_write hst1 ":"
      · exact bufFrame_rec hrec (bufFrame_write hst1 ":") _
    refine bufFrame_andThenE h2 fun st3 hst3 => ?_
    cases stp
    · exact hst3
    · exact bufFrame_rec hrec (bufFrame_write hst3 ":") _
  case nTuple elts ln c =>
    cases elts with
    | nil => exact bufFrame_print h0 "()" ln c
    | cons e0 rest =>
      refine bufFrame_andThenE (bufFrame_rec hrec (bufFrame_print h0 "(" ln (c - 1)) e0)
        fun st2 h2 => ?_
      refine bufFrame_andThenE (bufFrame_tupleRestW hrec rest h2) fun st3 h3 => ?_
      have h4 : BufFrame st (if rest.isEmpty then write "," st3 else st3) := by
        split_ifs
        · exact bufFrame_write h3 ","
        · exact h3
      exact bufFrame_write h4 ")"
  case nCall f args kws ln c =>
    refine bufFrame_andThenE (bufFrame_rec hrec h0 f) fun st1 h1 => ?_
    refine bufFrame_andThenE (bufFrame_commasepW hrec args true (bufFrame_write h1 "("))
      fun st3 h3 => ?_
    refine bufFrame_andThenE (bufFrame_keywordsW hrec kws (!args.isEmpty) h3) fun st4 h4 => ?_
    exact bufFrame_write h4 ")"
  case nBinOp l op r ln c =>
    have hmf := bufFrame_makeFstringW hrec (.nBinOp l op r ln c) h
    show BufFrame st (match makeFstringW rec (.nBinOp l op r ln c) st with
      | (st1, .done _) => (st1, none)
      | (st1, .err e) => (st1, some e)
      | (st1, .na) =>
        andThenE (rec l (autoParensEnter (.nBinOp l op r ln c) l r op st1).2) fun st2 =>
          andThenE (rec r (write (" " ++ binOpSymbol op ++ " ") st2)) fun st4 =>
            (autoParensExit (autoParensEnter (.nBinOp l op r ln c) l r op st1).1 st4, none)).1
    rcases hm : makeFstringW rec (.nBinOp l op r ln c) st with ⟨st1, res⟩
    rw [hm] at hmf
    cases res with
    | done muts => exact hmf
    | err e => exact hmf
    | na =>
      refine bufFrame_andThenE
        (bufFrame_rec hrec (bufFrame_autoParensEnter hmf (.nBinOp l op r ln c) l r op) l)
        fun st2 h2 => ?_
      refine bufFrame_andThenE
        (bufFrame_rec hrec (bufFrame_write h2 (" " ++ binOpSymbol op ++ " ")) r)
        fun st4 h4 => ?_
      exact bufFrame_autoParensExit h4 _
  case nCompare l prs ln c =>
    exact bufFrame_andThenE (bufFrame_rec hrec h0 l) fun st1 h1 =>
      bufFrame_comparePairsW hrec prs h1
  case nBoolOp op vals ln c =>
    cases vals with
    | nil => exact h0
    | cons v0 rest =>
      refine bufFrame_andThenE (bufFrame_boolValsW hrec (boolOpSymbol op) (v0 :: rest) true
        (bufFrame_autoParensEnter h0 (.nBoolOp op (v0 :: rest) ln c) v0 (rest.getLastD v0)
          (boolToOperator op))) fun st2 h2 => ?_
      exact bufFrame_autoParensExit h2 _

/-- A captured render with the fuel-indexed visit respects the capture
frame at every fuel. -/
lemma bufSafeN_visit : ∀ fuel, BufSafeN (visit fuel)
  | 0 => fun _ _ _ h => bufFrame_refl h
  | fuel + 1 => bufSafeN_visitStep (bufSafeN_visit fuel)

/-! ## Unbounded-window writes -/

lemma strMk_append (l1 l2 : List Char) :
    String.mk l1 ++ String.mk l2 = String.mk (l1 ++ l2) := rfl

lemma emitFilter_all : ∀ (lns : List (List Char)) (fl cur : Int), fl ≤ cur →
    emitFilter fl none lns cur = String.mk lns.flatten := by
  intro lns
  induction lns with
  | nil => intro fl cur _; rfl
  | cons ln rest ih =>
    intro fl cur h
    have hw : inWin fl none cur = true := by simp [inWin, h]
    show (if inWin fl none cur then String.mk ln else "") ++ emitFilter fl none rest (cur + 1) = _
    rw [hw, if_pos rfl, ih fl (cur + 1) (by omega), strMk_append, List.flatten_cons]

lemma cursorAdvanceSpec_line_mono : ∀ (cs : List Char) (l c : Int),
    l ≤ (cursorAdvanceSpec cs (l, c)).1 := by
  intro cs
  induction cs with
  | nil => intro l c; exact le_refl l
  | cons ch rest ih =>
    intro l c
    show l ≤ (cursorAdvanceSpec rest (if ch = '\n' then (l + 1, 0) else (l, c + 1))).1
    split_ifs with h
    · exact le_trans (by omega) (ih (l + 1) 0)
    · exact ih l (c + 1)

lemma write_unbounded (s : String) (st : St) (h1 : st.mode = Mode.real)
    (h2 : st.lastLine = none) (h3 : st.firstLine ≤ st.outputLine) :
    (write s st).out = st.out ++ s ∧
    ((write s st).mode = Mode.real ∧ (write s st).lastLine = none ∧
      (write s st).firstLine ≤ (write s st).outputLine) := by
  rw [write_real s st h1]
  obtain ⟨hcur, hout⟩ := writeLines_run (splitKeepL s.toList []) st
    (splitKeepL_chunksOK s.toList [] (by simp))
  obtain ⟨hf, hl, hm, -, -⟩ := writeLines_const (splitKeepL s.toList []) st
  refine ⟨?_, hm.trans h1, hl.trans h2, ?_⟩
  · rw [hout, h2, emitFilter_all _ _ _ h3, splitKeepL_flatten]
    simp only [List.reverse_nil, List.nil_append]
    rfl
  · have hline : (writeLines (splitKeepL s.toList []) st).outputLine =
        (cursorAdvanceSpec (splitKeepL s.toList []).flatten (st.outputLine, st.outputCol)).1 :=
      congrArg Prod.fst hcur
    rw [hf, hline, splitKeepL_flatten]
    simp only [List.reverse_nil, List.nil_append]
    exact le_trans h3 (cursorAdvanceSpec_line_mono s.toList st.outputLine st.outputCol)

/-! ## Emission structure of the rewrite's rendering loop -/

lemma renderPartsW_emit (fuel : Nat) : ∀ (ps : List Part) (st : St),
    st.mode = Mode.real → st.lastLine = none → st.firstLine ≤ st.outputLine →
    (renderPartsW (visit fuel) ps st).2.1 = none →
    ∃ caps : List String, caps.length = (subsOf ps).length ∧
      (renderPartsW (visit fuel) ps st).1.out = st.out ++ assembleParts ps caps := by
  intro ps
  induction ps with
  | nil =>
    intro st _ _ _ _
    exact ⟨[], rfl, by simp [renderPartsW, assembleParts]⟩
  | cons p rest ih =>
    intro st h1 h2 h3 hnoerr
    cases p with
    | lit s =>
      obtain ⟨ho, hP1, hP2, hP3⟩ := write_unbounded (escapeStringPart s) st h1 h2 h3
      have hnoerr' : (renderPartsW (visit fuel) rest (write (escapeStringPart s) st)).2.1
          = none := hnoerr
      obtain ⟨caps, hlen, hout⟩ := ih (write (escapeStringPart s) st) hP1 hP2 hP3 hnoerr'
      refine ⟨caps, by rw [subsOf_lit]; exact hlen, ?_⟩
      show (renderPartsW (visit fuel) rest (write (escapeStringPart s) st)).1.out = _
      rw [hout, ho]
      show _ = st.out ++ (escapeStringPart s ++ assembleParts rest caps)
      rw [String.append_assoc]
    | sub a t =>
      obtain ⟨ho1, hQ1, hQ2, hQ3⟩ := write_unbounded "\x7b" st h1 h2 h3
      rcases hc : captureWrite (visit fuel
          (a.setPos (write "\x7b" st).outputLine (write "\x7b" st).outputCol))
          (write "\x7b" st) with ⟨st2, e, cap⟩
      obtain ⟨hbo, hbf, hbl, -, -, -⟩ := bufSafeN_visit fuel
        (a.setPos (write "\x7b" st).outputLine (write "\x7b" st).outputCol)
        { write "\x7b" st with mode := Mode.buf "" } "" rfl
      have h2eq : st2 = (captureWrite (visit fuel
          (a.setPos (write "\x7b" st).outputLine (write "\x7b" st).outputCol))
          (write "\x7b" st)).1 := by rw [hc]
      simp only [renderPartsW, hc] at hnoerr ⊢
      cases e with
      | some e => exact absurd hnoerr (by simp)
      | none =>
        dsimp only at hnoerr ⊢
        have h2out : st2.out = (write "\x7b" st).out := by rw [h2eq]; exact hbo
        have h2mode : st2.mode = (write "\x7b" st).mode := by rw [h2eq]; rfl
        have h2line : st2.outputLine = (write "\x7b" st).outputLine := by rw [h2eq]; rfl
        have h2first : st2.firstLine = (write "\x7b" st).firstLine := by rw [h2eq]; exact hbf
        have h2last : st2.lastLine = (write "\x7b" st).lastLine := by rw [h2eq]; exact hbl
        obtain ⟨ho3, hR1, hR2, hR3⟩ := write_unbounded (escapeStringPart cap) st2
          (h2mode.trans hQ1) (h2last.trans hQ2)
          (by rw [h2first, h2line]; exact le_trans (le_of_eq rfl) hQ3)
        by_cases hts : t ≠ 's'
        · rw [if_pos hts] at hnoerr ⊢
          obtain ⟨ho4, hS1, hS2, hS3⟩ := write_unbounded ("!" ++ t.toString)
            (write (escapeStringPart cap) st2) hR1 hR2 hR3
          obtain ⟨ho5, hT1, hT2, hT3⟩ := write_unbounded "\x7d"
            (write ("!" ++ t.toString) (write (escapeStringPart cap) st2)) hS1 hS2 hS3
          obtain ⟨caps, hlen, hout⟩ := ih
            (write "\x7d" (write ("!" ++ t.toString) (write (escapeStringPart cap) st2)))
            hT1 hT2 hT3 hnoerr
          refine ⟨escapeStringPart cap :: caps, ?_, ?_⟩
          · rw [subsOf_sub]
            simpa using hlen
          · rw [hout, ho5, ho4, ho3, h2out, ho1]
            show _ = st.out ++ (assembleSub t (escapeStringPart cap) ++ assembleParts rest caps)
            unfold assembleSub
            rw [if_pos hts]
            simp only [String.append_assoc]
        · rw [if_neg hts] at hnoerr ⊢
          obtain ⟨ho5, hT1, hT2, hT3⟩ := write_unbounded "\x7d"
            (write (escapeStringPart cap) st2) hR1 hR2 hR3
          obtain ⟨caps, hlen, hout⟩ := ih
            (write "\x7d" (write (escapeStringPart cap) st2)) hT1 hT2 hT3 hnoerr
          refine ⟨escapeStringPart cap :: caps, ?_, ?_⟩
          · rw [subsOf_sub]
            simpa using hlen
          · rw [hout, ho5, ho3, h2out, ho1]
            show _ = st.out ++ (assembleSub t (escapeStringPart cap) ++ assembleParts rest caps)
            unfold assembleSub
            rw [if_neg hts]
            simp only [String.append_assoc, String.append_empty]

/-! ## Claim theorems: directive/argument matching (C1) -/

/-- C1: (i) for a template whose directives are all display,
representation or percent escapes, with exactly as many arguments as
argument-consuming directives, the scan succeeds and its substitutions are
exactly the arguments zipped, in template order, with those directives'
conversion types (so there are exactly N of them); (ii) a successful
rendering of the scanned pieces emits the escaped literal segments
interleaved with exactly one braced substitution per `sub` piece, carrying
the `!r` suffix exactly for representation pieces (the shape captured by
`assembleParts`/`assembleSub`); (iii) the concrete scenario
`'%s%s, %s!' % (greeting[0].upper(), greeting[1:], target)` renders to
exactly `f'{greeting[0].upper()}{greeting[1:]}, {target}!'`. -/
theorem c1_directive_matching :
    (∀ (s : String) (args : List Node),
        supportedTypes (findMatches s).1 →
        args.length = (srOf (findMatches s).1).length →
        ∃ ps, scanFormat s args = .ok ps ∧
          subsOf ps = args.zip (srOf (findMatches s).1) ∧
          (subsOf ps).length = args.length) ∧
    (∀ (fuel : Nat) (ps : List Part) (st : St),
        st.mode = Mode.real → st.lastLine = none → st.firstLine ≤ st.outputLine →
        (renderPartsW (visit fuel) ps st).2.1 = none →
        ∃ caps : List String, caps.length = (subsOf ps).length ∧
          (renderPartsW (visit fuel) ps st).1.out = st.out ++ assembleParts ps caps) ∧
    (visit 30 exScenario initSt).1.out =
      "f" ++ sq ++ "\x7bgreeting[0].upper()\x7d\x7bgreeting[1:]\x7d, \x7btarget\x7d!" ++ sq ∧
    (visit 30 exScenario initSt).2 = none := by
  refine ⟨?_, renderPartsW_emit, by decide, rfl⟩
  intro s args hsup hlen
  obtain ⟨ps, hok, hsub⟩ :=
    scanLoop_ok (findMatches s).1 args (findMatches s).2 hsup hlen
  refine ⟨ps, hok, hsub, ?_⟩
  rw [hsub, List.length_zip, hlen]
  exact min_self _

/-- Witness for C1: the scan of the concrete scenario's template against
its three arguments, and the render characterization at a concrete state. -/
theorem c1_witness :
    (∃ ps, scanFormat "%s%s, %s!" [exCall, exSlice, Node.nName "target" 1 47] = .ok ps ∧
      subsOf ps = [exCall, exSlice, Node.nName "target" 1 47].zip
        (srOf (findMatches "%s%s, %s!").1) ∧
      (subsOf ps).length = 3) ∧
    (∃ caps : List String, caps.length = (subsOf ([] : List Part)).length ∧
      (renderPartsW (visit 1) [] initSt).1.out = initSt.out ++ assembleParts [] caps) := by
  constructor
  · exact c1_directive_matching.1 "%s%s, %s!" [exCall, exSlice, Node.nName "target" 1 47]
      (by unfold supportedTypes; decide) (by decide)
  · exact c1_directive_matching.2.1 1 [] initSt rfl rfl (by decide) rfl

end Fstrings
